import Mathlib

/-!
# Query binder of `internal/mysql/parse.go`

A shallow embedding of the MySQL query binder: the scope resolver `parseFrom`,
the projection binder `parseSelectAliasExpr`, the per-statement binders, the
dispatcher `parseQueryString`, and the file level `parseContents`,
`parsePath` and `GeneratePkg`.

Conventions of the embedding

* A Go call that returns `(value, error)` becomes a value of `Outcome`: a
  normal return with a value, a normal return with a non-nil error, or a
  run-time panic (an explicit `panic(...)` or an index out of range).
* A Go `map[string]V` is an association list with unique keys; `GoMap.set`
  is the assignment `m[k] = v`, `GoMap.get` the lookup, and a `range` loop
  visits the entries of the list once each.
* Functions of the package that live in other files (`schema.go`,
  `param.go`), of `dinosql` and of the `sqlparser` library are fields of the
  structures `Helpers` and `FileHelpers`; the binder is a function of them.
* The shared `*Schema` is passed in and handed back: a result carries the
  schema as the call left it.
-/

namespace Mysql

/-! ## Outcomes of a call -/

/-- Errors the binder creates or forwards.  The text of the Go error is in
the comment of each constructor; `%w` wrapping keeps the cause. -/
inductive BindError where
  /-- "failed to parse AliasedTableExpr name: ..." -/
  | aliasedTableExprName
  /-- "failed to parse table expr: ..." -/
  | tableExpr
  /-- "failed to parse table name alias's: %w" -/
  | tableAliases (cause : BindError)
  /-- "Failed to handle select expr of type : %T" -/
  | selectExprType
  /-- "Unknown insert row type of %T" -/
  | unknownInsertRowType
  /-- "failed to parse query leading comment" -/
  | leadingComment
  /-- "cannot parse name and cmd from null query" -/
  | nullQuery
  /-- "failed to determine type of a parameter's column: %w" -/
  | paramColumnType (cause : BindError)
  /-- "failed to parse params from WHERE expression: %w" -/
  | whereParams (cause : BindError)
  /-- "failed to replace param variables in query string: %w" -/
  | replaceParams (cause : BindError)
  /-- an error made by a function outside `parse.go` -/
  | helper (msg : String)
  deriving DecidableEq, Repr

/-- Run-time panics of the binder. -/
inductive Panic where
  /-- the statement `panic("Error occurred in parsing INSERT statement")` -/
  | insertStatement
  /-- "index out of range [index] with length len" -/
  | indexOutOfRange (index len : Nat)
  /-- "slice bounds out of range": `text[low : position-1]` on a text of
  `len` bytes -/
  | sliceBounds (low position len : Nat)
  /-- the panic of `functionReturnType` on a function name it has no
  return type for: "unknown mysql function type [name]" -/
  | unknownFunction (name : String)
  deriving DecidableEq, Repr

/-- Result of a Go call: a value, an error value, or a panic. -/
inductive Outcome (α : Type) where
  | ok (a : α)
  | error (e : BindError)
  | panic (p : Panic)
  deriving DecidableEq, Repr

namespace Outcome

/-- The call returned an error value. -/
def isError {α : Type} : Outcome α → Bool
  | error _ => true
  | _ => false

/-- The call panicked. -/
def isPanic {α : Type} : Outcome α → Bool
  | panic _ => true
  | _ => false

/-- The call returned normally without an error. -/
def isOk {α : Type} : Outcome α → Bool
  | ok _ => true
  | _ => false

end Outcome

/-! ## Go maps with string keys -/

/-- A Go `map[string]V`: entries with pairwise different keys. -/
abbrev GoMap (V : Type) := List (String × V)

namespace GoMap

/-- The lookup `m[k]`, with `none` for a missing key. -/
def get {V : Type} : GoMap V → String → Option V
  | [], _ => none
  | (k1, v) :: rest, k => if k1 = k then some v else get rest k

/-- The map without its entry for `k`, if it has one. -/
def erase {V : Type} : GoMap V → String → GoMap V
  | [], _ => []
  | (k1, v) :: rest, k => if k1 = k then erase rest k else (k1, v) :: erase rest k

/-- The assignment `m[k] = v`: the entry for `k` is replaced or added. -/
def set {V : Type} (m : GoMap V) (k : String) (v : V) : GoMap V :=
  (k, v) :: erase m k

/-- The keys of the map, in the order the entries are visited. -/
def keys {V : Type} (m : GoMap V) : List String := m.map Prod.fst

/-- The loop `for k, v := range src { dst[k] = v }`. -/
def assignAll {V : Type} (src dst : GoMap V) : GoMap V :=
  src.foldl (fun acc e => set acc e.1 e.2) dst

end GoMap

/-! ## The statement tree (`sqlparser`) -/

/-- The type `sqlparser.TableName`. -/
structure TableName where
  Name : String
  Qualifier : String := ""
  deriving DecidableEq, Repr

/-- The interface `sqlparser.SimpleTableExpr`: a table name or a subquery.
The binder never reads the select of a subquery. -/
inductive SimpleTableExpr where
  | tableName (name : TableName)
  | subquery
  deriving DecidableEq, Repr

/-- The interface `sqlparser.TableExpr`.  `aliased` is `*AliasedTableExpr`
(fields `Expr` and `As`; `Partitions` and `Hints` are never read), `paren`
is `*ParenTableExpr`, `join` is `*JoinTableExpr` (the `Condition` is never
read). -/
inductive TableExpr where
  | aliased (Expr : SimpleTableExpr) (As : String)
  | paren (Exprs : List TableExpr)
  | join (LeftExpr : TableExpr) (Join : String) (RightExpr : TableExpr)

/-- FromTable describes a table reference in the "FROM" clause of a query. -/
structure FromTable where
  /-- the true table name as described in the schema -/
  TrueName : String
  /-- which could result in null columns -/
  IsLeftJoined : Bool
  deriving DecidableEq, Repr

/-- FromTables describes a map between table alias expressions and the
proper table name. -/
abbrev FromTables := GoMap FromTable

/-! ## `parseFrom` -/

/-- What one iteration of the loop in `parseFrom` leaves behind: the loop
goes on with `tables` and `defaultTableName` updated, or the function has
returned a scope and a table name from inside the loop. -/
inductive FromStep where
  | next (tables : FromTables) (defaultTableName : String)
  | returned (tables : FromTables) (tableName : String)

/-- The scope and the table name a step carries. -/
def FromStep.result : FromStep → FromTables × String
  | .next tables defaultTableName => (tables, defaultTableName)
  | .returned tables tableName => (tables, tableName)

/-- The result of `parseFrom` on a one-element list, given what the single
iteration did: after `next` the loop is over and line 266 returns the
locals. -/
def FromStep.finish : Outcome FromStep → Outcome (FromTables × String)
  | .ok step => .ok step.result
  | .error e => .error e
  | .panic p => .panic p

/-- The body of `for _, expr := range from` in `parseFrom` (lines 231-264),
with the local `tables` passed in (the body never reads `defaultTableName`).
The two recursive calls are on one-element lists, each with a fresh map. -/
def parseFromExpr (isLeftJoined : Bool) (tables : FromTables) : TableExpr → Outcome FromStep
  | .aliased (.tableName name) As =>
    let t : FromTable := { TrueName := name.Name, IsLeftJoined := isLeftJoined }
    if As ≠ "" then
      .ok (.next (tables.set As t) name.Name)
    else
      .ok (.next (tables.set name.Name t) name.Name)
  | .aliased .subquery _ => .error .aliasedTableExprName
  | .join LeftExpr Join RightExpr =>
    let isLeftJoin := decide (Join = "left join")
    match FromStep.finish (parseFromExpr false [] LeftExpr) with
    | .error e => .error e
    | .panic p => .panic p
    | .ok (left, leftMostTableName) =>
      match FromStep.finish (parseFromExpr isLeftJoin [] RightExpr) with
      | .error e => .error e
      | .panic p => .panic p
      | .ok (right, _) => .ok (.returned (GoMap.assignAll left right) leftMostTableName)
  | .paren _ => .error .tableExpr

/-- The loop of `parseFrom` from a given state of the locals. -/
def parseFromLoop (isLeftJoined : Bool) :
    List TableExpr → FromTables → String → Outcome (FromTables × String)
  | [], tables, defaultTableName => .ok (tables, defaultTableName)
  | expr :: rest, tables, _ =>
    match parseFromExpr isLeftJoined tables expr with
    | .ok (.next tables1 defaultTableName1) => parseFromLoop isLeftJoined rest tables1 defaultTableName1
    | .ok (.returned right leftMostTableName) => .ok (right, leftMostTableName)
    | .error e => .error e
    | .panic p => .panic p

/-- The function `parseFrom` (lines 227-267). -/
def parseFrom (frm : List TableExpr) (isLeftJoined : Bool) : Outcome (FromTables × String) :=
  parseFromLoop isLeftJoined frm [] ""

/-! ## Expressions, projections and statements (`sqlparser`) -/

/-- The type `sqlparser.ValType` of a literal value; `ValArg` is a
placeholder. -/
inductive ValType where
  | StrVal | IntVal | FloatVal | HexNum | HexVal | ValArg | BitVal
  deriving DecidableEq, Repr

/-- The type `sqlparser.ColName` (`Metadata` is never read). -/
structure ColName where
  Name : String
  Qualifier : TableName := { Name := "" }
  deriving DecidableEq, Repr

mutual

/-- The interface `sqlparser.Expr`.  The four kinds the binder tells apart
are `colName`, `sqlVal`, `groupConcat` and `funcExpr`; the other
constructors are expression kinds it has no case for. -/
inductive Expr where
  /-- the type `*ColName` -/
  | colName (v : ColName)
  /-- the type `*SQLVal`, fields `Type` and `Val` -/
  | sqlVal (Type_ : ValType) (Val : String)
  /-- the type `*GroupConcatExpr` (`OrderBy` and `Limit` are never read) -/
  | groupConcat (Distinct : String) (Exprs : List SelectExpr) (Separator : String)
  /-- the type `*FuncExpr` -/
  | funcExpr (Qualifier : String) (Name : String) (Distinct : Bool) (Exprs : List SelectExpr)
  /-- the type `*NullVal` -/
  | nullVal
  /-- the type `BoolVal` -/
  | boolVal (b : Bool)
  /-- the type `*BinaryExpr` -/
  | binary (Operator : String) (Left Right : Expr)
  /-- the type `*ComparisonExpr` -/
  | comparison (Operator : String) (Left Right : Expr)
  /-- the type `*AndExpr` -/
  | andExpr (Left Right : Expr)
  /-- the type `*OrExpr` -/
  | orExpr (Left Right : Expr)
  /-- the type `*NotExpr` -/
  | notExpr (e : Expr)
  /-- the type `*ParenExpr` -/
  | parenExpr (e : Expr)
  /-- the type `*Subquery` (its select is never read) -/
  | subquery

/-- The interface `sqlparser.SelectExpr`. -/
inductive SelectExpr where
  /-- the type `*StarExpr` -/
  | star (TableName : TableName)
  /-- the type `*AliasedExpr` -/
  | aliased (Expr : Expr) (As : String)
  /-- the type `Nextval` -/
  | nextval (Expr : Expr)

end

/-- The type `sqlparser.Where`. -/
structure Where where
  Type_ : String
  Expr : Expr

/-- The type `sqlparser.Limit`. -/
structure Limit where
  Offset : Option Expr
  Rowcount : Option Expr

/-- The type `sqlparser.Select`, with the fields the binder reads and
`Comments`. -/
structure Select where
  Comments : List String := []
  SelectExprs : List SelectExpr
  From : List TableExpr
  Where : Option Where := none
  Limit : Option Limit := none

/-- The interface `sqlparser.InsertRows`. -/
inductive InsertRows where
  /-- the type `*Select` -/
  | select (rows : Select)
  /-- the type `Values`: a list of tuples of expressions -/
  | values (rows : List (List Expr))
  /-- the type `*Union` -/
  | union
  /-- the type `*ParenSelect` -/
  | parenSelect

/-- The type `sqlparser.Insert`; `Columns` holds the names of the explicit
column list. -/
structure Insert where
  Action : String := "insert"
  Comments : List String := []
  Table : TableName
  Columns : List String
  Rows : InsertRows

/-- The type `sqlparser.UpdateExpr`. -/
structure UpdateExpr where
  Name : ColName
  Expr : Expr

/-- The type `sqlparser.Update`. -/
structure Update where
  Comments : List String := []
  TableExprs : List TableExpr
  Exprs : List UpdateExpr
  Where : Option Where := none
  Limit : Option Limit := none

/-- The type `sqlparser.Delete`. -/
structure Delete where
  Comments : List String := []
  TableExprs : List TableExpr
  Where : Option Where := none
  Limit : Option Limit := none

/-- The type `sqlparser.ColumnType`, fields `Type` (here `Type_`) and
`NotNull`. -/
structure ColumnType where
  Type_ : String
  NotNull : Bool
  deriving DecidableEq, Repr

/-- The type `sqlparser.ColumnDefinition`. -/
structure ColumnDefinition where
  Name : String
  Type_ : ColumnType
  deriving DecidableEq, Repr

/-- The type `sqlparser.DDL`: action, table and, for a table definition, its
columns. -/
structure DDL where
  Action : String
  Table : TableName
  TableSpec : Option (List ColumnDefinition) := none

/-- The interface `sqlparser.Statement`.  The first five kinds have a case
in `parseQueryString`; the others are the remaining statement types of the
parser, which the binder does not look into. -/
inductive Statement where
  | select (tree : Select)
  | insert (tree : Insert)
  | update (tree : Update)
  | delete (tree : Delete)
  | ddl (tree : DDL)
  | union
  | parenSelect
  | stream
  | setStmt
  | dbddl
  | showStmt
  | use
  | beginStmt
  | commit
  | rollback
  | otherRead
  | otherAdmin

/-! ## The binder's own types -/

/-- The type `Schema` of `schema.go`: its one field, read at line 176. -/
structure Schema where
  tables : GoMap (List ColumnDefinition)
  deriving DecidableEq, Repr

/-- The type `Column` (lines 27-30). -/
structure Column where
  ColumnDefinition : ColumnDefinition
  Table : String
  deriving DecidableEq, Repr

/-- The type `Param` of `param.go`, with the three fields `parse.go`
writes. -/
structure Param where
  OriginalName : String
  Name : String := ""
  Typ : String := ""
  deriving DecidableEq, Repr

/-- Query holds the data for walking and validating mysql querys (lines
15-25).  `SchemaLookup` is the pointer to the one shared schema and is not
kept. -/
structure Query where
  SQL : String
  Columns : List Column := []
  Params : List Param := []
  Name : String := ""
  Cmd : String := ""
  DefaultTableName : String := ""
  Filename : String := ""
  deriving DecidableEq, Repr

/-- The type `sqlparser.MarginComments`. -/
structure MarginComments where
  Leading : String
  Trailing : String

/-- Functions `parse.go` calls and does not define.  Each one is assumed to
return normally, except `functionReturnType`, which panics on a function
name it does not recognise; one that returns `(value, error)` is an
`Except`.  `Settings` stands for `dinosql.GenerateSettings`. -/
structure Helpers (Settings : Type) where
  /-- `(*Schema).getColType` -/
  getColType : Schema → ColName → FromTables → String → Except BindError ColumnDefinition
  /-- `tableColReferences`: both results, as line 420 drops the error and
  reads the table all the same -/
  tableColReferences : ColName → String → FromTables → FromTable × Option BindError
  /-- `(*Schema).schemaLookup` -/
  schemaLookup : Schema → String → String → Except BindError ColumnDefinition
  /-- `(*Schema).Add` -/
  schemaAdd : Schema → DDL → Schema
  /-- `paramsInWhereExpr` -/
  paramsInWhereExpr : Option Where → Schema → FromTables → String → Settings →
    Except BindError (List Param)
  /-- `paramsInLimitExpr` -/
  paramsInLimitExpr : Option Limit → Schema → FromTables → Settings →
    Except BindError (List Param)
  /-- `paramName` -/
  paramName : String → String → String
  /-- `goTypeCol` -/
  goTypeCol : ColumnDefinition → Settings → String
  /-- `functionReturnType`: the return type it has for a function name
  in lower case; it panics on a name it does not recognise (`none`) -/
  functionReturnType : String → Option String
  /-- `(ColIdent).Lowered`: the identifier in lower case
  (`strings.ToLower`) -/
  lowered : String → String
  /-- `replaceParamStrs` -/
  replaceParamStrs : String → List Param → Except BindError String
  /-- `sqlparser.String` -/
  sqlString : Statement → String
  /-- `sqlparser.SplitMarginComments` -/
  splitMarginComments : String → String × MarginComments
  /-- `dinosql.ParseMetadata` with `dinosql.CommentSyntaxStar` -/
  parseMetadata : String → Except BindError (String × String)

/-! ## The binding routines -/

section Binder

variable {Settings : Type}

/-- The method `(*Query).parseNameAndCmd` (lines 150-164), returning the
query with `Name` and `Cmd` set.  The receiver is the address of a local in
every caller, so the `q == nil` branch is never taken. -/
def Query.parseNameAndCmd (h : Helpers Settings) (q : Query) : Outcome Query :=
  let comments := (h.splitMarginComments q.SQL).2
  match h.parseMetadata comments.Leading with
  | .error err => .error err
  | .ok (name, cmd) =>
    if name = "" ∨ cmd = "" then
      .error .leadingComment
    else
      .ok { q with Name := name, Cmd := cmd }

/-- The loop of `parseSelectAliasExpr` (lines 405-460) from a given value of
`cols`.  The inner switch on `expr.Expr` has three cases and no default: on
any other expression the iteration appends nothing.  The write `res.Name =
expr.As` is on the definition `getColType` returned.  The call of
`functionReturnType` at line 439 panics on a function name it does not
recognise. -/
def parseSelectAliasExprLoop (h : Helpers Settings) (s : Schema) (tableAliasMap : FromTables)
    (defaultTable : String) : List SelectExpr → List Column → Outcome (List Column)
  | [], cols => .ok cols
  | col :: rest, cols =>
    match col with
    | .aliased expr As =>
      let hasAlias := decide (As ≠ "")
      match expr with
      | .colName v =>
        match h.getColType s v tableAliasMap defaultTable with
        | .error err => .error err
        | .ok res =>
          let res := if hasAlias then { res with Name := As } else res
          let fromTable := (h.tableColReferences v defaultTable tableAliasMap).1
          parseSelectAliasExprLoop h s tableAliasMap defaultTable rest
            (cols ++ [{ ColumnDefinition := res, Table := fromTable.TrueName }])
      | .groupConcat _ _ _ =>
        parseSelectAliasExprLoop h s tableAliasMap defaultTable rest
          (cols ++ [{ ColumnDefinition :=
            { Name := As, Type_ := { Type_ := "varchar", NotNull := true } }, Table := "" }])
      | .funcExpr _ Name _ _ =>
        let funcName := h.lowered Name
        match h.functionReturnType funcName with
        | none => .panic (.unknownFunction funcName)
        | some funcType =>
          let returnVal := if hasAlias then As else funcName
          let colDfn : ColumnDefinition :=
            { Name := returnVal, Type_ := { Type_ := funcType, NotNull := true } }
          parseSelectAliasExprLoop h s tableAliasMap defaultTable rest
            (cols ++ [{ ColumnDefinition := colDfn, Table := "" }])
      | _ => parseSelectAliasExprLoop h s tableAliasMap defaultTable rest cols
    | _ => .error .selectExprType

/-- The function `parseSelectAliasExpr` (lines 403-462). -/
def parseSelectAliasExpr (h : Helpers Settings) (exprs : List SelectExpr) (s : Schema)
    (tableAliasMap : FromTables) (defaultTable : String) : Outcome (List Column) :=
  parseSelectAliasExprLoop h s tableAliasMap defaultTable exprs []

/-- Lines 172-185 of `parseSelect`: the projection list after the wildcard
step, given the first projection.  A table missing from `s.tables` reads as
the nil slice. -/
def expandStar (s : Schema) (defaultTableName : String) (first : SelectExpr)
    (exprs : List SelectExpr) : List SelectExpr :=
  match first with
  | .star _ =>
    ((s.tables.get defaultTableName).getD []).map
      (fun col => SelectExpr.aliased (.colName { Name := col.Name }) "")
  | _ => exprs

/-- The function `parseSelect` (lines 166-215).  It returns the query and
the tree, whose `SelectExprs` it overwrites at line 184.  The index
expression `tree.SelectExprs[0]` panics on an empty projection list. -/
def parseSelect (h : Helpers Settings) (tree : Select) (query : String) (s : Schema)
    (settings : Settings) : Outcome (Query × Select) :=
  match parseFrom tree.From false with
  | .panic p => .panic p
  | .error err => .error (.tableAliases err)
  | .ok (tableAliasMap, defaultTableName) =>
    match tree.SelectExprs with
    | [] => .panic (.indexOutOfRange 0 0)
    | first :: _ =>
      let tree := { tree with
        SelectExprs := expandStar s defaultTableName first tree.SelectExprs }
      let parsedQuery : Query := { SQL := query, DefaultTableName := defaultTableName }
      match parseSelectAliasExpr h tree.SelectExprs s tableAliasMap defaultTableName with
      | .panic p => .panic p
      | .error err => .error err
      | .ok cols =>
        let parsedQuery := { parsedQuery with Columns := cols }
        match h.paramsInWhereExpr tree.Where s tableAliasMap defaultTableName settings with
        | .error err => .error err
        | .ok whereParams =>
          match h.paramsInLimitExpr tree.Limit s tableAliasMap settings with
          | .error err => .error err
          | .ok limitParams =>
            let parsedQuery := { parsedQuery with Params := whereParams ++ limitParams }
            match parsedQuery.parseNameAndCmd h with
            | .panic p => .panic p
            | .error err => .error err
            | .ok parsedQuery => .ok (parsedQuery, tree)

/-- The loop over `node.Exprs` in `parseUpdate` (lines 276-295) from a given
value of `params`. -/
def parseUpdateExprs (h : Helpers Settings) (s : Schema) (settings : Settings)
    (tableAliasMap : FromTables) (defaultTable : String) :
    List UpdateExpr → List Param → Outcome (List Param)
  | [], params => .ok params
  | updateExpr :: rest, params =>
    match updateExpr.Expr with
    | .sqlVal typ val =>
      if typ ≠ ValType.ValArg then
        parseUpdateExprs h s settings tableAliasMap defaultTable rest params
      else
        match h.getColType s updateExpr.Name tableAliasMap defaultTable with
        | .error err => .error (.paramColumnType err)
        | .ok colDfn =>
          let param : Param :=
            { OriginalName := val, Name := h.paramName colDfn.Name val,
              Typ := h.goTypeCol colDfn settings }
          parseUpdateExprs h s settings tableAliasMap defaultTable rest (params ++ [param])
    | _ => parseUpdateExprs h s settings tableAliasMap defaultTable rest params

/-- The function `parseUpdate` (lines 269-315). -/
def parseUpdate (h : Helpers Settings) (node : Update) (query : String) (s : Schema)
    (settings : Settings) : Outcome Query :=
  match parseFrom node.TableExprs false with
  | .panic p => .panic p
  | .error err => .error (.tableAliases err)
  | .ok (tableAliasMap, defaultTable) =>
    match parseUpdateExprs h s settings tableAliasMap defaultTable node.Exprs [] with
    | .panic p => .panic p
    | .error err => .error err
    | .ok params =>
      match h.paramsInWhereExpr node.Where s tableAliasMap defaultTable settings with
      | .error err => .error (.whereParams err)
      | .ok whereParams =>
        let parsedQuery : Query :=
          { SQL := query, Columns := [], Params := params ++ whereParams,
            DefaultTableName := defaultTable }
        parsedQuery.parseNameAndCmd h

/-- The loop `for colIx, item := range row` of `parseInsert` (lines
331-352) from a given index and value of `params`.  `cols[colIx]` panics when
`colIx` is not below `len(cols)`; a cell that is not a `*SQLVal` reaches the
`panic` of line 350. -/
def parseInsertRow (h : Helpers Settings) (s : Schema) (settings : Settings) (cols : List String)
    (tableName : String) : List Expr → Nat → List Param → Outcome (List Param)
  | [], _, params => .ok params
  | item :: rest, colIx, params =>
    match item with
    | .sqlVal typ val =>
      if typ = ValType.ValArg then
        match cols[colIx]? with
        | none => .panic (.indexOutOfRange colIx cols.length)
        | some colName =>
          let varName := val
          let p : Param :=
            match h.schemaLookup s tableName colName with
            | .ok colDfn =>
              { OriginalName := varName, Name := h.paramName colDfn.Name varName,
                Typ := h.goTypeCol colDfn settings }
            | .error _ =>
              { OriginalName := varName, Name := "Unknown", Typ := "interface\x7b\x7d" }
          parseInsertRow h s settings cols tableName rest (colIx + 1) (params ++ [p])
      else
        parseInsertRow h s settings cols tableName rest (colIx + 1) params
    | _ => .panic .insertStatement

/-- The loop `for _, row := range rows` of `parseInsert` (lines 330-353). -/
def parseInsertRows (h : Helpers Settings) (s : Schema) (settings : Settings) (cols : List String)
    (tableName : String) : List (List Expr) → List Param → Outcome (List Param)
  | [], params => .ok params
  | row :: rest, params =>
    match parseInsertRow h s settings cols tableName row 0 params with
    | .panic p => .panic p
    | .error err => .error err
    | .ok params1 => parseInsertRows h s settings cols tableName rest params1

/-- The function `parseInsert` (lines 317-371).  It returns the query and
the node: `parseSelect` writes to the select that `node.Rows` points to. -/
def parseInsert (h : Helpers Settings) (node : Insert) (query : String) (s : Schema)
    (settings : Settings) : Outcome (Query × Insert) :=
  let cols := node.Columns
  let tableName := node.Table.Name
  let bound : Outcome (List Param × Insert) :=
    match node.Rows with
    | .select rows =>
      match parseSelect h rows query s settings with
      | .panic p => .panic p
      | .error err => .error err
      | .ok (selectQuery, rows1) =>
        .ok ([] ++ selectQuery.Params, { node with Rows := .select rows1 })
    | .values rows =>
      match parseInsertRows h s settings cols tableName rows [] with
      | .panic p => .panic p
      | .error err => .error err
      | .ok params => .ok (params, node)
    | _ => .error .unknownInsertRowType
  match bound with
  | .panic p => .panic p
  | .error err => .error err
  | .ok (params, node1) =>
    let parsedQuery : Query :=
      { SQL := query, Params := params, Columns := [], DefaultTableName := tableName }
    match parsedQuery.parseNameAndCmd h with
    | .panic p => .panic p
    | .error err => .error err
    | .ok parsedQuery => .ok (parsedQuery, node1)

/-- The function `parseDelete` (lines 373-401). -/
def parseDelete (h : Helpers Settings) (node : Delete) (query : String) (s : Schema)
    (settings : Settings) : Outcome Query :=
  match parseFrom node.TableExprs false with
  | .panic p => .panic p
  | .error err => .error (.tableAliases err)
  | .ok (tableAliasMap, defaultTableName) =>
    match h.paramsInWhereExpr node.Where s tableAliasMap defaultTableName settings with
    | .error err => .error err
    | .ok whereParams =>
      match h.paramsInLimitExpr node.Limit s tableAliasMap settings with
      | .error err => .error err
      | .ok limitParams =>
        let parsedQuery : Query :=
          { SQL := query, Params := whereParams ++ limitParams, Columns := [],
            DefaultTableName := defaultTableName }
        parsedQuery.parseNameAndCmd h

/-- Lines 142-147 of `parseQueryString`: the statement text is printed from
the tree as the binder left it, its parameters are renamed, and the result
is stored in the query. -/
def replaceParams (h : Helpers Settings) (tree : Statement) (parsedQuery : Query) (s : Schema) :
    Outcome (Option Query × Schema) :=
  match h.replaceParamStrs (h.sqlString tree) parsedQuery.Params with
  | .error err => .error (.replaceParams err)
  | .ok paramsReplacedQuery => .ok (some { parsedQuery with SQL := paramsReplacedQuery }, s)

/-- The function `parseQueryString` (lines 108-148).  The value is the
`*Query` (`none` for `nil`) and the schema after the call, which only the
DDL case changes. -/
def parseQueryString (h : Helpers Settings) (tree : Statement) (query : String) (s : Schema)
    (settings : Settings) : Outcome (Option Query × Schema) :=
  match tree with
  | .select tree =>
    match parseSelect h tree query s settings with
    | .panic p => .panic p
    | .error err => .error err
    | .ok (selectQuery, tree1) => replaceParams h (.select tree1) selectQuery s
  | .insert tree =>
    match parseInsert h tree query s settings with
    | .panic p => .panic p
    | .error err => .error err
    | .ok (insert, tree1) => replaceParams h (.insert tree1) insert s
  | .update tree =>
    match parseUpdate h tree query s settings with
    | .panic p => .panic p
    | .error err => .error err
    | .ok update => replaceParams h (.update tree) update s
  | .delete tree =>
    match parseDelete h tree query s settings with
    | .panic p => .panic p
    | .error err => .error err
    | .ok delete => replaceParams h (.delete tree) delete s
  | .ddl tree => .ok (none, h.schemaAdd s tree)
  | _ => .ok (none, s)

end Binder

/-! ## Files: `parseContents`, `parsePath` and `GeneratePkg` -/

/-- The successive results of `sqlparser.ParseNextStrictDDL` on the tokenizer
of one text: the statements, each with the value of `t.Position` after the
call that returned it, and then `io.EOF` (`none`) or a syntax error. -/
structure Parsed where
  statements : List (Statement × Nat)
  syntaxError : Option String

/-- The error values `parseContents` wraps in a `PositionedErr`. -/
inductive ContentsError where
  /-- "syntax error" -/
  | syntaxError
  /-- "syntax error at or near '%s'" -/
  | syntaxErrorNear (near : String)
  /-- the error `parseQueryString` returned -/
  | bind (err : BindError)
  deriving DecidableEq, Repr

/-- The type `PositionedErr`: an offset in the text and a cause. -/
structure PositionedErr where
  Pos : Nat
  Err : ContentsError
  deriving DecidableEq, Repr

/-- The error values `parsePath` hands to `parseErrors.Add`. -/
inductive FileCause where
  /-- the error of `ioutil.ReadFile` -/
  | read (err : BindError)
  /-- the `PositionedErr` of `parseContents` -/
  | positioned (err : PositionedErr)
  deriving DecidableEq, Repr

/-- One entry of `dinosql.ParserErr`, as the arguments of the `Add` call that
made it. -/
structure FileErr where
  Filename : String
  Source : String
  Loc : Nat
  Err : FileCause
  deriving DecidableEq, Repr

/-- Modelled from the spec: `(*dinosql.ParserErr).Add`, which is not in
`parse.go`.  The aggregate error "holds an ordered list of PositionedError":
one call appends one entry (file, text, offset, cause) at the end. -/
def ParserErr.Add (errs : List FileErr) (filename source : String) (loc : Nat)
    (err : FileCause) : List FileErr :=
  errs ++ [{ Filename := filename, Source := source, Loc := loc, Err := err }]

/-- The type `Result`. -/
structure Result where
  Queries : List Query
  Schema : Schema
  packageName : String
  deriving DecidableEq, Repr

/-- Functions of the file level that `parse.go` calls and does not define,
and the files themselves.  `tokenize` stands for `NewStringTokenizer` and the
calls of `ParseNextStrictDDL` on it. -/
structure FileHelpers where
  /-- `NewSchema` -/
  newSchema : Schema
  /-- `dinosql.ReadSQLFiles` -/
  readSQLFiles : String → Except BindError (List String)
  /-- `ioutil.ReadFile` -/
  readFile : String → Except BindError String
  /-- `dinosql.RemoveRollbackStatements` -/
  removeRollbackStatements : String → String
  /-- the tokenizer and the parser on one text -/
  tokenize : String → Parsed
  /-- `locFromSyntaxErr` -/
  locFromSyntaxErr : String → Except BindError Nat
  /-- `nearStrFromSyntaxErr` -/
  nearStrFromSyntaxErr : String → Except BindError String
  /-- `filepath.Base` -/
  base : String → String

/-- The slice `contents[start : position-1]` of line 93, on byte offsets;
`none` when Go panics on the bounds. -/
def sliceQuery (contents : String) (start position : Nat) : Option String :=
  if 1 ≤ position ∧ start ≤ position - 1 ∧ position - 1 ≤ contents.utf8ByteSize then
    some (contents.extract ⟨start⟩ ⟨position - 1⟩)
  else
    none

/-- What `parseContents` leaves: the queries or the error it returns, with
the schema as the statements bound so far left it, or a panic. -/
inductive ContentsResult where
  | ok (queries : List Query) (s : Schema)
  | error (err : PositionedErr) (s : Schema)
  | panic (p : Panic)
  deriving DecidableEq, Repr

section Files

variable {Settings : Type}

/-- The loop of `parseContents` (lines 78-104) over the results of the
parser, from given values of `queries`, `start` and the schema. -/
def parseContentsLoop (h : Helpers Settings) (fh : FileHelpers) (filename contents : String)
    (settings : Settings) (syntaxError : Option String) :
    List (Statement × Nat) → List Query → Nat → Schema → ContentsResult
  | [], queries, start, s =>
    match syntaxError with
    | none => .ok queries s
    | some err =>
      let parsedLoc :=
        match fh.locFromSyntaxErr err with
        | .ok loc => loc
        | .error _ => start
      match fh.nearStrFromSyntaxErr err with
      | .error _ => .error { Pos := parsedLoc, Err := .syntaxError } s
      | .ok near => .error { Pos := parsedLoc, Err := .syntaxErrorNear near } s
  | (q, position) :: rest, queries, start, s =>
    match sliceQuery contents start position with
    | none => .panic (.sliceBounds start position contents.utf8ByteSize)
    | some query =>
      match parseQueryString h q query s settings with
      | .panic p => .panic p
      | .error err => .error { Pos := start, Err := .bind err } s
      | .ok (result, s1) =>
        match result with
        | none =>
          parseContentsLoop h fh filename contents settings syntaxError rest queries position s1
        | some result =>
          parseContentsLoop h fh filename contents settings syntaxError rest
            (queries ++ [{ result with Filename := fh.base filename }]) position s1

/-- The function `parseContents` (lines 74-106). -/
def parseContents (h : Helpers Settings) (fh : FileHelpers) (filename contents : String)
    (s : Schema) (settings : Settings) : ContentsResult :=
  let t := fh.tokenize contents
  parseContentsLoop h fh filename contents settings t.syntaxError t.statements [] 0 s

/-- What `parsePath` leaves: the result, the error of `ReadSQLFiles`, or the
aggregate error, with the schema after the call, or a panic. -/
inductive PathResult where
  | ok (result : Result)
  | readError (err : BindError) (s : Schema)
  | parserErr (Errs : List FileErr) (s : Schema)
  | panic (p : Panic)
  deriving DecidableEq, Repr

/-- The schema a call of `parsePath` leaves behind, when it returns. -/
def PathResult.schema : PathResult → Option Schema
  | .ok result => some result.Schema
  | .readError _ s => some s
  | .parserErr _ s => some s
  | .panic _ => none

/-- The loop of `parsePath` (lines 41-61) and the return after it (lines
63-71), from given values of `parseErrors.Errs`, `parsedQueries` and the
schema.  After a failed `ReadFile` both `if err != nil` of lines 43 and 47
are taken.  `parseContents` returns no error other than a `PositionedErr`,
so line 56 is not reached. -/
def parsePathLoop (h : Helpers Settings) (fh : FileHelpers) (inPkg : String)
    (settings : Settings) : List String → List FileErr → List Query → Schema → PathResult
  | [], parseErrors, parsedQueries, s =>
    if parseErrors.length > 0 then
      .parserErr parseErrors s
    else
      .ok { Queries := parsedQueries, Schema := s, packageName := inPkg }
  | filename :: rest, parseErrors, parsedQueries, s =>
    match fh.readFile filename with
    | .error err =>
      let parseErrors := ParserErr.Add parseErrors filename "" 0 (.read err)
      let parseErrors := ParserErr.Add parseErrors filename "" 0 (.read err)
      parsePathLoop h fh inPkg settings rest parseErrors parsedQueries s
    | .ok blob =>
      let contents := fh.removeRollbackStatements blob
      match parseContents h fh filename contents s settings with
      | .panic p => .panic p
      | .error positionedErr s1 =>
        parsePathLoop h fh inPkg settings rest
          (ParserErr.Add parseErrors filename contents positionedErr.Pos
            (.positioned positionedErr)) parsedQueries s1
      | .ok queries s1 =>
        parsePathLoop h fh inPkg settings rest parseErrors (parsedQueries ++ queries) s1

/-- The function `parsePath` (lines 32-72). -/
def parsePath (h : Helpers Settings) (fh : FileHelpers) (sqlPath inPkg : String) (s : Schema)
    (settings : Settings) : PathResult :=
  match fh.readSQLFiles sqlPath with
  | .error err => .readError err s
  | .ok files => parsePathLoop h fh inPkg settings files [] [] s

/-- GeneratePkg is the main entry to mysql generator package (lines
465-476). -/
def GeneratePkg (h : Helpers Settings) (fh : FileHelpers) (pkgName schemaPath querysPath : String)
    (settings : Settings) : PathResult :=
  let s := fh.newSchema
  match parsePath h fh schemaPath pkgName s settings with
  | .ok result => parsePath h fh querysPath pkgName result.Schema settings
  | failed => failed

end Files

/-! ## Join trees, as the specification speaks of them -/

/-- The key a table leaf is registered under: its alias, or the table name
when it has no alias. -/
def scopeKey (name : TableName) (As : String) : String :=
  if As ≠ "" then As else name.Name

/-- Every leaf of the tree is a table reference and every inner node a
join. -/
def TableExpr.leavesAreTables : TableExpr → Bool
  | .aliased (.tableName _) _ => true
  | .aliased .subquery _ => false
  | .paren _ => false
  | .join l _ r => l.leavesAreTables && r.leavesAreTables

/-- The true table name of the left-most leaf of a join tree (the empty
string when that leaf is not a table reference). -/
def TableExpr.leftMostTable : TableExpr → String
  | .aliased (.tableName name) _ => name.Name
  | .aliased .subquery _ => ""
  | .paren _ => ""
  | .join l _ _ => l.leftMostTable

/-! ## VALUES inserts, as the specification speaks of them -/

/-- The cell is a `*SQLVal`: a literal or a placeholder. -/
def Expr.isSQLVal : Expr → Bool
  | .sqlVal _ _ => true
  | _ => false

/-- The cell is a placeholder. -/
def Expr.isPlaceholder : Expr → Bool
  | .sqlVal .ValArg _ => true
  | _ => false

/-- The Param of a placeholder `varName` that stands at the position of the
column `colName`: named and typed from the column the catalog has for
`(tableName, colName)`, or named "Unknown" and of type `interface{}` when
the lookup fails. -/
def insertParam {Settings : Type} (h : Helpers Settings) (s : Schema) (settings : Settings)
    (tableName colName varName : String) : Param :=
  match h.schemaLookup s tableName colName with
  | .ok colDfn =>
    { OriginalName := varName, Name := h.paramName colDfn.Name varName,
      Typ := h.goTypeCol colDfn settings }
  | .error _ => { OriginalName := varName, Name := "Unknown", Typ := "interface\x7b\x7d" }

/-- The Params of one row: each cell is paired with the column at the same
ordinal position, and each placeholder cell gives one Param, left to
right. -/
def rowParams {Settings : Type} (h : Helpers Settings) (s : Schema) (settings : Settings)
    (tableName : String) (cols : List String) (row : List Expr) : List Param :=
  (row.zip cols).filterMap fun
    | (.sqlVal .ValArg varName, colName) => some (insertParam h s settings tableName colName varName)
    | _ => none

/-- The Params of a VALUES list: those of its rows, row by row. -/
def valuesParams {Settings : Type} (h : Helpers Settings) (s : Schema) (settings : Settings)
    (tableName : String) (cols : List String) (rows : List (List Expr)) : List Param :=
  rows.flatMap (rowParams h s settings tableName cols)

/-- The number of placeholder cells of a VALUES list. -/
def placeholderCount (rows : List (List Expr)) : Nat :=
  (rows.map fun row => row.countP Expr.isPlaceholder).sum

/-! ## Statement kinds -/

/-- The statement kinds `parseQueryString` has a binding routine for:
select, insert, update and delete. -/
def Statement.hasBinder : Statement → Bool
  | .select _ => true
  | .insert _ => true
  | .update _ => true
  | .delete _ => true
  | _ => false

/-- The statement is DDL. -/
def Statement.isDDL : Statement → Bool
  | .ddl _ => true
  | _ => false

/-! ## Stand-ins for the functions outside `parse.go` -/

/-- Simple stand-ins for the helper functions, to run the binder on
examples: columns are looked up by exact name in `s.tables`, a DDL
statement with a table definition stores it under the table's name, a
non-empty statement text counts as carrying the directive `Example :exec`
(the command comes back with its colon), identifiers are lower-cased letter
by letter, a few aggregate functions have a return type and every other
function name makes `functionReturnType` panic,
and WHERE and LIMIT clauses carry no parameters.  The theorems below hold for every
`Helpers`; this one only instantiates them. -/
def exampleHelpers : Helpers Unit where
  getColType := fun s col _ defaultTable =>
    match ((s.tables.get defaultTable).getD []).find? (fun c => decide (c.Name = col.Name)) with
    | some c => .ok c
    | none => .error (.helper "column not found")
  tableColReferences := fun _ defaultTable _ =>
    ({ TrueName := defaultTable, IsLeftJoined := false }, none)
  schemaLookup := fun s table col =>
    match ((s.tables.get table).getD []).find? (fun c => decide (c.Name = col)) with
    | some c => .ok c
    | none => .error (.helper "column not found")
  schemaAdd := fun s tree =>
    match tree.TableSpec with
    | some cols => { tables := s.tables.set tree.Table.Name cols }
    | none => s
  paramsInWhereExpr := fun _ _ _ _ _ => .ok []
  paramsInLimitExpr := fun _ _ _ _ => .ok []
  paramName := fun col _ => col
  goTypeCol := fun col _ => col.Type_.Type_
  functionReturnType := fun f =>
    if f = "count" ∨ f = "sum" ∨ f = "min" ∨ f = "max" ∨ f = "avg" then some "int"
    else if f = "concat" then some "varchar"
    else none
  lowered := fun name => String.mk (name.data.map Char.toLower)
  replaceParamStrs := fun sql _ => .ok sql
  sqlString := fun _ => "sql"
  splitMarginComments := fun sql => (sql, { Leading := sql, Trailing := "" })
  parseMetadata := fun leading => if leading = "" then .ok ("", "") else .ok ("Example", ":exec")

/-- A schema with the one table `t (a int not null, b text)`. -/
def exampleSchema : Schema where
  tables := [("t", [{ Name := "a", Type_ := { Type_ := "int", NotNull := true } },
                    { Name := "b", Type_ := { Type_ := "text", NotNull := false } }])]

/-- The rows of `VALUES (?, 'lit'), (?, ?)`. -/
def exampleRows : List (List Expr) :=
  [[.sqlVal .ValArg ":v1", .sqlVal .StrVal "lit"], [.sqlVal .ValArg ":v2", .sqlVal .ValArg ":v3"]]

/-- The statement `INSERT INTO t (a, zz) VALUES (?, 'lit'), (?, ?)`. -/
def exampleInsert : Insert where
  Table := { Name := "t" }
  Columns := ["a", "zz"]
  Rows := .values exampleRows

/-- The statement `SELECT a FROM t`. -/
def exampleSelect : Select where
  SelectExprs := [.aliased (.colName { Name := "a" }) ""]
  From := [.aliased (.tableName { Name := "t" }) ""]

/-! ## Updates, wildcards and predicates, as the specification speaks of them -/

/-- The Param of one SET assignment: an assignment whose right-hand side is a
placeholder gives a Param named after and typed from the assigned column,
any other assignment gives none. -/
def setParam {Settings : Type} (h : Helpers Settings) (s : Schema) (settings : Settings)
    (tableAliasMap : FromTables) (defaultTable : String) (updateExpr : UpdateExpr) :
    Option Param :=
  match updateExpr.Expr with
  | .sqlVal .ValArg val =>
    match h.getColType s updateExpr.Name tableAliasMap defaultTable with
    | .ok colDfn =>
      some { OriginalName := val, Name := h.paramName colDfn.Name val,
             Typ := h.goTypeCol colDfn settings }
    | .error _ => none
  | _ => none

/-- The Params of the SET clause, in SET-clause order. -/
def setParams {Settings : Type} (h : Helpers Settings) (s : Schema) (settings : Settings)
    (tableAliasMap : FromTables) (defaultTable : String) (exprs : List UpdateExpr) :
    List Param :=
  exprs.filterMap (setParam h s settings tableAliasMap defaultTable)

/-- The unqualified column references `c1, ..., cn` for the columns of a
table, in declared order. -/
def columnRefs (cols : List ColumnDefinition) : List SelectExpr :=
  cols.map fun col => SelectExpr.aliased (.colName { Name := col.Name }) ""

/-- The projection is a wildcard, bare or qualified. -/
def SelectExpr.isStar : SelectExpr → Bool
  | .star _ => true
  | _ => false

/-- The projection is a GROUP_CONCAT expression or a function call, with or
without an alias. -/
def SelectExpr.isFunctionLike : SelectExpr → Bool
  | .aliased (.groupConcat _ _ _) _ => true
  | .aliased (.funcExpr _ _ _ _) _ => true
  | _ => false

/-- The predicate machinery: the FROM list is resolved, then the parameters
of the WHERE clause and of the LIMIT clause are collected; the value is the
parameters, WHERE first, and the default table name. -/
def fromWhereLimit {Settings : Type} (h : Helpers Settings) (frm : List TableExpr)
    (whereClause : Option Where) (limit : Option Limit) (s : Schema) (settings : Settings) :
    Outcome (List Param × String) :=
  match parseFrom frm false with
  | .panic p => .panic p
  | .error err => .error (.tableAliases err)
  | .ok (tableAliasMap, defaultTableName) =>
    match h.paramsInWhereExpr whereClause s tableAliasMap defaultTableName settings with
    | .error err => .error err
    | .ok whereParams =>
      match h.paramsInLimitExpr limit s tableAliasMap settings with
      | .error err => .error err
      | .ok limitParams => .ok (whereParams ++ limitParams, defaultTableName)

/-- The projection is not a function call with a name `functionReturnType`
does not recognise. -/
def SelectExpr.functionKnown {Settings : Type} (h : Helpers Settings) : SelectExpr → Bool
  | .aliased (.funcExpr _ Name _ _) _ => (h.functionReturnType (h.lowered Name)).isSome
  | _ => true

/-- A FROM list of plain table references, each a table name and an alias
(empty for none). -/
def tableRefs (refs : List (TableName × String)) : List TableExpr :=
  refs.map fun r => TableExpr.aliased (.tableName r.1) r.2

/-- The entry the last reference with the key `k` leaves in the scope. -/
def lastRef (refs : List (TableName × String)) (isLeftJoined : Bool) (k : String) :
    Option FromTable :=
  (refs.reverse.find? fun r => decide (scopeKey r.1 r.2 = k)).map
    fun r => { TrueName := r.1.Name, IsLeftJoined := isLeftJoined }

/-- The true name of the last reference of the list. -/
def lastTable (refs : List (TableName × String)) : String :=
  (refs.getLast?.map fun r => r.1.Name).getD ""

/-- A query has a non-empty name and command. -/
def Query.hasDirective (q : Query) : Prop := q.Name ≠ "" ∧ q.Cmd ≠ ""

/-- The directive of the statement text parses to a non-empty name and
command. -/
def validDirective {Settings : Type} (h : Helpers Settings) (query : String) : Prop :=
  ∃ name cmd : String,
    h.parseMetadata (h.splitMarginComments query).2.Leading = .ok (name, cmd) ∧
    name ≠ "" ∧ cmd ≠ ""

/-- No statement the parser finds in the text is DDL. -/
def Parsed.noDDL (t : Parsed) : Prop :=
  ∀ st ∈ t.statements, st.1.isDDL = false

/-- The stand-ins with a WHERE collector that finds one placeholder bound
to the column `b` in every WHERE clause. -/
def exampleHelpersWhere : Helpers Unit :=
  { exampleHelpers with
    paramsInWhereExpr := fun w _ _ _ _ =>
      match w with
      | some _ => .ok [{ OriginalName := ":v2", Name := "b", Typ := "text" }]
      | none => .ok [] }

/-- The clause `WHERE b = ?`. -/
def exampleWhere : Where where
  Type_ := "where"
  Expr := .comparison "=" (.colName { Name := "b" }) (.sqlVal .ValArg ":v2")

/-- The statement `UPDATE t SET a = ?, b = 'x' WHERE b = ?`. -/
def exampleUpdate : Update where
  TableExprs := [.aliased (.tableName { Name := "t" }) ""]
  Exprs := [{ Name := { Name := "a" }, Expr := .sqlVal .ValArg ":v1" },
            { Name := { Name := "b" }, Expr := .sqlVal .StrVal "x" }]
  Where := some exampleWhere

/-- The declared columns of the table `t` of `exampleSchema`. -/
def exampleColumns : List ColumnDefinition :=
  [{ Name := "a", Type_ := { Type_ := "int", NotNull := true } },
   { Name := "b", Type_ := { Type_ := "text", NotNull := false } }]

/-- The statement `SELECT * FROM t`. -/
def exampleSelectStar : Select where
  SelectExprs := [.star { Name := "" }]
  From := [.aliased (.tableName { Name := "t" }) ""]

/-- The projection `foo(a)`: a call of a function the stand-ins have no
return type for. -/
def exampleFoo : SelectExpr :=
  .aliased (.funcExpr "" "foo" false [.aliased (.colName { Name := "a" }) ""]) ""

/-- The statement `SELECT foo(a) FROM t`. -/
def exampleSelectFoo : Select where
  SelectExprs := [exampleFoo]
  From := [.aliased (.tableName { Name := "t" }) ""]

/-- The stand-ins with, in addition, a LIMIT collector that finds one
placeholder in every LIMIT clause. -/
def exampleHelpersLimit : Helpers Unit :=
  { exampleHelpersWhere with
    paramsInLimitExpr := fun l _ _ _ =>
      match l with
      | some _ => .ok [{ OriginalName := ":v3", Name := "limit", Typ := "uint32" }]
      | none => .ok [] }

/-- The stand-ins with a WHERE collector that fails on every WHERE clause, as
for a column that is not found. -/
def exampleHelpersNoColumn : Helpers Unit :=
  { exampleHelpers with
    paramsInWhereExpr := fun w _ _ _ _ =>
      match w with
      | some _ => .error (.helper "column not found")
      | none => .ok [] }

/-- The clause `LIMIT ?`. -/
def exampleLimit : Limit where
  Offset := none
  Rowcount := some (.sqlVal .ValArg ":v3")

/-- The statement `SELECT a FROM t WHERE b = ? LIMIT ?`. -/
def exampleSelectWhere : Select where
  SelectExprs := [.aliased (.colName { Name := "a" }) ""]
  From := [.aliased (.tableName { Name := "t" }) ""]
  Where := some exampleWhere
  Limit := some exampleLimit

/-- The statement `DELETE FROM t WHERE b = ? LIMIT ?`. -/
def exampleDeleteWhere : Delete where
  TableExprs := [.aliased (.tableName { Name := "t" }) ""]
  Where := some exampleWhere
  Limit := some exampleLimit

/-- The statement `DELETE FROM t`. -/
def exampleDelete : Delete where
  TableExprs := [.aliased (.tableName { Name := "t" }) ""]

/-- The statement `INSERT INTO t (a) VALUES (NULL)`. -/
def exampleInsertNull : Insert where
  Table := { Name := "t" }
  Columns := ["a"]
  Rows := .values [[.nullVal]]

/-- The statement `CREATE TABLE u (a int not null)`. -/
def exampleCreateU : DDL where
  Action := "create"
  Table := { Name := "u" }
  TableSpec := some [{ Name := "a", Type_ := { Type_ := "int", NotNull := true } }]

/-- The statement `CREATE TABLE t (a int not null, b text)`. -/
def exampleCreateT : DDL where
  Action := "create"
  Table := { Name := "t" }
  TableSpec := some [{ Name := "a", Type_ := { Type_ := "int", NotNull := true } },
                     { Name := "b", Type_ := { Type_ := "text", NotNull := false } }]

/-- A small file system and parser, to run the file level on examples: the
path `schema` holds `schema.sql` (`create table t`), the path `queries`
holds `ddl.sql` (`create table u`), the path `plain` holds `select.sql`
(`/* name: Example :exec */ select a from t`), the path `crash` holds
`null.sql` (`insert into t (a) values (null)`), and the path `unreadable`
lists `missing.sql`, which cannot be read. -/
def exampleFiles : FileHelpers where
  newSchema := { tables := [] }
  readSQLFiles := fun path =>
    if path = "schema" then .ok ["schema.sql"]
    else if path = "queries" then .ok ["ddl.sql"]
    else if path = "plain" then .ok ["select.sql"]
    else if path = "crash" then .ok ["null.sql"]
    else if path = "unreadable" then .ok ["missing.sql"]
    else .error (.helper "no such directory")
  readFile := fun filename =>
    if filename = "schema.sql" then .ok "create table t"
    else if filename = "ddl.sql" then .ok "create table u"
    else if filename = "select.sql" then .ok "/* name: Example :exec */ select a from t"
    else if filename = "null.sql" then .ok "insert into t (a) values (null)"
    else .error (.helper "no such file")
  removeRollbackStatements := fun contents => contents
  tokenize := fun contents =>
    if contents = "create table t" then
      { statements := [(.ddl exampleCreateT, 15)], syntaxError := none }
    else if contents = "create table u" then
      { statements := [(.ddl exampleCreateU, 15)], syntaxError := none }
    else if contents = "/* name: Example :exec */ select a from t" then
      { statements := [(.select exampleSelect, 42)], syntaxError := none }
    else if contents = "insert into t (a) values (null)" then
      { statements := [(.insert exampleInsertNull, 32)], syntaxError := none }
    else
      { statements := [], syntaxError := none }
  locFromSyntaxErr := fun _ => .error (.helper "no location")
  nearStrFromSyntaxErr := fun _ => .error (.helper "no text")
  base := fun filename => filename

/-! ## Facts about Go maps -/

namespace GoMap

theorem get_erase_ne {V : Type} (m : GoMap V) (k k1 : String) (hne : k ≠ k1) :
    get (erase m k) k1 = get m k1 := by
  induction m with
  | nil => rfl
  | cons e rest ih =>
    obtain ⟨k2, v⟩ := e
    by_cases h2 : k2 = k
    · subst h2
      simp [erase, get, hne, ih]
    · simp [erase, get, h2, ih]

/-- Reading after `m[k] = v`. -/
theorem get_set {V : Type} (m : GoMap V) (k k1 : String) (v : V) :
    get (set m k v) k1 = if k = k1 then some v else get m k1 := by
  by_cases h : k = k1
  · simp [set, get, h]
  · simp [set, get, h, get_erase_ne m k k1 h]

theorem get_eq_none_of_not_mem {V : Type} (m : GoMap V) (k : String) (h : k ∉ keys m) :
    get m k = none := by
  induction m with
  | nil => rfl
  | cons e rest ih =>
    obtain ⟨k2, v⟩ := e
    simp only [keys, List.map_cons, List.mem_cons, not_or] at h
    have hne : k2 ≠ k := fun hk => h.1 hk.symm
    simp only [get, hne, if_false]
    exact ih h.2

theorem mem_keys_erase {V : Type} (m : GoMap V) (k k1 : String) (h : k1 ∈ keys (erase m k)) :
    k1 ∈ keys m ∧ k1 ≠ k := by
  induction m with
  | nil => simp [erase, keys] at h
  | cons e rest ih =>
    obtain ⟨k2, v⟩ := e
    by_cases h2 : k2 = k
    · simp only [erase, h2, if_true] at h
      have := ih h
      exact ⟨by simp [keys] at this ⊢; exact Or.inr this.1, this.2⟩
    · simp only [erase, h2, if_false, keys, List.map_cons, List.mem_cons] at h
      rcases h with h | h
      · subst h
        exact ⟨by simp [keys], h2⟩
      · have := ih h
        exact ⟨by simp [keys] at this ⊢; exact Or.inr this.1, this.2⟩

theorem nodup_erase {V : Type} (m : GoMap V) (k : String) (hm : (keys m).Nodup) :
    (keys (erase m k)).Nodup := by
  induction m with
  | nil => simp [erase, keys]
  | cons e rest ih =>
    obtain ⟨k2, v⟩ := e
    simp only [keys, List.map_cons, List.nodup_cons] at hm
    by_cases h2 : k2 = k
    · simp only [erase, h2, if_true]
      exact ih hm.2
    · simp only [erase, h2, if_false, keys, List.map_cons, List.nodup_cons]
      exact ⟨fun hmem => hm.1 (mem_keys_erase rest k k2 hmem).1, ih hm.2⟩

theorem nodup_set {V : Type} (m : GoMap V) (k : String) (v : V) (hm : (keys m).Nodup) :
    (keys (set m k v)).Nodup := by
  simp only [set, keys, List.map_cons, List.nodup_cons]
  exact ⟨fun hmem => (mem_keys_erase m k k hmem).2 rfl, nodup_erase m k hm⟩

theorem nodup_assignAll {V : Type} (src dst : GoMap V) (hd : (keys dst).Nodup) :
    (keys (assignAll src dst)).Nodup := by
  induction src generalizing dst with
  | nil => exact hd
  | cons e rest ih => exact ih _ (nodup_set dst e.1 e.2 hd)

/-- Reading after `for k, v := range src { dst[k] = v }`: the entry of `src`
when it has one, the entry of `dst` otherwise. -/
theorem get_assignAll {V : Type} (src dst : GoMap V) (hs : (keys src).Nodup) (k : String) :
    get (assignAll src dst) k = (get src k).or (get dst k) := by
  induction src generalizing dst with
  | nil => rfl
  | cons e rest ih =>
    obtain ⟨k2, v⟩ := e
    simp only [keys, List.map_cons, List.nodup_cons] at hs
    have ih1 := ih (set dst k2 v) hs.2
    simp only [assignAll, List.foldl_cons] at ih1 ⊢
    rw [ih1]
    by_cases h2 : k2 = k
    · subst h2
      have hnone : get rest k2 = none := get_eq_none_of_not_mem rest k2 hs.1
      rw [hnone, get_set]
      simp [get]
    · rw [get_set]
      simp [get, h2]

end GoMap

/-! ## Facts about `parseFrom` -/

/-- On a one-element list `parseFrom` is one iteration and the return of
line 266. -/
theorem parseFrom_singleton (expr : TableExpr) (isLeftJoined : Bool) :
    parseFrom [expr] isLeftJoined = FromStep.finish (parseFromExpr isLeftJoined [] expr) := by
  unfold parseFrom
  simp only [parseFromLoop]
  cases parseFromExpr isLeftJoined [] expr with
  | ok step => cases step <;> rfl
  | error e => rfl
  | panic p => rfl

/-- The join case of the loop body, in the shape of lines 248-261: two calls
of `parseFrom` on one-element lists, the first one with `false`. -/
theorem parseFromExpr_join (isLeftJoined : Bool) (tables : FromTables) (l r : TableExpr)
    (j : String) :
    parseFromExpr isLeftJoined tables (.join l j r) =
      match parseFrom [l] false with
      | .error e => .error e
      | .panic p => .panic p
      | .ok (left, leftMostTableName) =>
        match parseFrom [r] (decide (j = "left join")) with
        | .error e => .error e
        | .panic p => .panic p
        | .ok (right, _) => .ok (.returned (GoMap.assignAll left right) leftMostTableName) := by
  rw [parseFrom_singleton, parseFrom_singleton]
  rfl

/-- The keys of the scope one iteration leaves are pairwise different when
those of `tables` are. -/
theorem parseFromExpr_nodup : ∀ (expr : TableExpr) (isLeftJoined : Bool) (tables : FromTables),
    (GoMap.keys tables).Nodup → ∀ (step : FromStep),
    parseFromExpr isLeftJoined tables expr = .ok step → (GoMap.keys step.result.1).Nodup
  | .aliased .subquery _, _, _, _, _, hres => by
    simp [parseFromExpr] at hres
  | .aliased (.tableName name) As, isLeftJoined, tables, ht, step, hres => by
    by_cases hAs : As = ""
    · simp only [parseFromExpr, hAs, ne_eq, not_true_eq_false, if_false,
        Outcome.ok.injEq] at hres
      rw [← hres]
      exact GoMap.nodup_set _ _ _ ht
    · simp only [parseFromExpr, hAs, ne_eq, not_false_eq_true, if_true,
        Outcome.ok.injEq] at hres
      rw [← hres]
      exact GoMap.nodup_set _ _ _ ht
  | .paren _, _, _, _, _, hres => by
    simp [parseFromExpr] at hres
  | .join l j r, isLeftJoined, tables, _, step, hres => by
    rw [parseFromExpr_join, parseFrom_singleton, parseFrom_singleton] at hres
    cases hl : parseFromExpr false [] l with
    | error e => simp [hl, FromStep.finish] at hres
    | panic p => simp [hl, FromStep.finish] at hres
    | ok stepl =>
      cases hr : parseFromExpr (decide (j = "left join")) [] r with
      | error e => simp [hl, hr, FromStep.finish] at hres
      | panic p => simp [hl, hr, FromStep.finish] at hres
      | ok stepr =>
        simp only [hl, hr, FromStep.finish, Outcome.ok.injEq] at hres
        rw [← hres]
        exact GoMap.nodup_assignAll _ _ (parseFromExpr_nodup r _ [] List.nodup_nil stepr hr)

/-- The scope `parseFrom` returns for one expression has pairwise different
keys. -/
theorem parseFrom_singleton_nodup (expr : TableExpr) (isLeftJoined : Bool) (m : FromTables)
    (d : String) (hres : parseFrom [expr] isLeftJoined = .ok (m, d)) : (GoMap.keys m).Nodup := by
  rw [parseFrom_singleton] at hres
  cases hstep : parseFromExpr isLeftJoined [] expr with
  | error e => simp [hstep, FromStep.finish] at hres
  | panic p => simp [hstep, FromStep.finish] at hres
  | ok step =>
    simp only [hstep, FromStep.finish, Outcome.ok.injEq] at hres
    have := parseFromExpr_nodup expr isLeftJoined [] List.nodup_nil step hstep
    rw [hres] at this
    exact this

/-- A table leaf alone: one entry under its key, with the flag passed in. -/
theorem parseFrom_leaf (name : TableName) (As : String) (isLeftJoined : Bool) :
    parseFrom [.aliased (.tableName name) As] isLeftJoined =
      .ok ([(scopeKey name As, { TrueName := name.Name, IsLeftJoined := isLeftJoined })],
        name.Name) := by
  rw [parseFrom_singleton]
  by_cases hAs : As = "" <;>
    simp [parseFromExpr, FromStep.finish, FromStep.result, scopeKey, hAs, GoMap.set,
      GoMap.erase]

/-- A join node whose two subtrees resolve: the merged scope and the left
subtree's table name, whatever flag was passed in. -/
theorem parseFrom_join_ok (l r : TableExpr) (j : String) (isLeftJoined : Bool)
    (left right : FromTables) (leftMost rightMost : String)
    (hl : parseFrom [l] false = .ok (left, leftMost))
    (hr : parseFrom [r] (decide (j = "left join")) = .ok (right, rightMost)) :
    parseFrom [.join l j r] isLeftJoined = .ok (GoMap.assignAll left right, leftMost) := by
  rw [parseFrom_singleton, parseFromExpr_join, hl, hr]
  rfl

/-- A join tree of table leaves resolves, to the name of its left-most
leaf. -/
theorem parseFrom_join_tree_ok : ∀ (tree : TableExpr) (isLeftJoined : Bool),
    tree.leavesAreTables = true →
    ∃ scope : FromTables, parseFrom [tree] isLeftJoined = .ok (scope, tree.leftMostTable)
  | .aliased (.tableName name) As, isLeftJoined, _ => ⟨_, parseFrom_leaf name As isLeftJoined⟩
  | .aliased .subquery _, _, hleaves => by simp [TableExpr.leavesAreTables] at hleaves
  | .paren _, _, hleaves => by simp [TableExpr.leavesAreTables] at hleaves
  | .join l j r, isLeftJoined, hleaves => by
    simp only [TableExpr.leavesAreTables, Bool.and_eq_true] at hleaves
    obtain ⟨left, hl⟩ := parseFrom_join_tree_ok l false hleaves.1
    obtain ⟨right, hr⟩ := parseFrom_join_tree_ok r (decide (j = "left join")) hleaves.2
    exact ⟨_, parseFrom_join_ok l r j isLeftJoined left right _ _ hl hr⟩

/-! ## The scope resolver: claims -/

/-- C1: for table leaves `A` and `B` with different scope keys, `parseFrom`
on the one expression `A LEFT JOIN B` with the flag `false` returns a scope
that maps the key of `B` to an entry with `IsLeftJoined = true` and the key
of `A` to an entry with `IsLeftJoined = false` (and `A` as default table). -/
theorem parseFrom_left_join_flags (a b : TableName) (aAs bAs : String)
    (hkeys : scopeKey a aAs ≠ scopeKey b bAs) :
    ∃ scope : FromTables,
      parseFrom [.join (.aliased (.tableName a) aAs) "left join" (.aliased (.tableName b) bAs)]
        false = .ok (scope, a.Name) ∧
      scope.get (scopeKey b bAs) = some { TrueName := b.Name, IsLeftJoined := true } ∧
      scope.get (scopeKey a aAs) = some { TrueName := a.Name, IsLeftJoined := false } := by
  refine ⟨_, parseFrom_join_ok _ _ "left join" false _ _ _ _ (parseFrom_leaf a aAs false)
    (parseFrom_leaf b bAs _), ?_, ?_⟩
  · rw [GoMap.get_assignAll _ _ (by simp [GoMap.keys])]
    simp [GoMap.get, hkeys, Ne.symm hkeys]
  · rw [GoMap.get_assignAll _ _ (by simp [GoMap.keys])]
    simp [GoMap.get]

/-- C1 at `a LEFT JOIN b AS x`. -/
theorem parseFrom_left_join_flags_witness :
    scopeKey { Name := "a" } "" ≠ scopeKey { Name := "b" } "x" ∧
    ∃ scope : FromTables,
      parseFrom [.join (.aliased (.tableName { Name := "a" }) "") "left join"
        (.aliased (.tableName { Name := "b" }) "x")] false = .ok (scope, "a") ∧
      scope.get "x" = some { TrueName := "b", IsLeftJoined := true } ∧
      scope.get "a" = some { TrueName := "a", IsLeftJoined := false } :=
  ⟨by decide, parseFrom_left_join_flags { Name := "a" } { Name := "b" } "" "x" (by decide)⟩

/-- C2, evaluated on the code: in `a LEFT JOIN (b JOIN c)` with the flag
`false` the leaves `b` and `c` of the right subtree get `IsLeftJoined =
false`, and in `a JOIN b` with the flag `true` the left leaf `a` gets
`IsLeftJoined = false`: a join node passes `false` to its left subtree and
only its own join kind to its right subtree, not the flag it was given. -/
theorem parseFrom_join_drops_inherited_flag :
    (∃ scope : FromTables,
      parseFrom [.join (.aliased (.tableName { Name := "a" }) "") "left join"
        (.join (.aliased (.tableName { Name := "b" }) "") "join"
          (.aliased (.tableName { Name := "c" }) ""))] false = .ok (scope, "a") ∧
      scope.get "b" = some { TrueName := "b", IsLeftJoined := false } ∧
      scope.get "c" = some { TrueName := "c", IsLeftJoined := false }) ∧
    (∃ scope : FromTables,
      parseFrom [.join (.aliased (.tableName { Name := "a" }) "") "join"
        (.aliased (.tableName { Name := "b" }) "")] true = .ok (scope, "a") ∧
      scope.get "a" = some { TrueName := "a", IsLeftJoined := false }) :=
  ⟨⟨[("a", { TrueName := "a", IsLeftJoined := false }),
      ("b", { TrueName := "b", IsLeftJoined := false }),
      ("c", { TrueName := "c", IsLeftJoined := false })], by decide, by decide, by decide⟩,
   ⟨[("a", { TrueName := "a", IsLeftJoined := false }),
      ("b", { TrueName := "b", IsLeftJoined := false })], by decide, by decide⟩⟩

/-- C3: on a join tree whose leaves are all table references, with any join
kinds, any nesting and any flag, `parseFrom` succeeds and the table name it
returns is the true name of the left-most leaf. -/
theorem parseFrom_default_is_leftmost (tree : TableExpr) (isLeftJoined : Bool)
    (hleaves : tree.leavesAreTables = true) :
    ∃ scope : FromTables, parseFrom [tree] isLeftJoined = .ok (scope, tree.leftMostTable) :=
  parseFrom_join_tree_ok tree isLeftJoined hleaves

/-- C3 at both nestings of `a JOIN b JOIN c`: the default table is `a`. -/
theorem parseFrom_default_is_leftmost_witness :
    (∃ scope : FromTables,
      parseFrom [.join (.join (.aliased (.tableName { Name := "a" }) "") "join"
          (.aliased (.tableName { Name := "b" }) "")) "join"
        (.aliased (.tableName { Name := "c" }) "")] false = .ok (scope, "a")) ∧
    (∃ scope : FromTables,
      parseFrom [.join (.aliased (.tableName { Name := "a" }) "") "join"
        (.join (.aliased (.tableName { Name := "b" }) "") "join"
          (.aliased (.tableName { Name := "c" }) ""))] false = .ok (scope, "a")) :=
  ⟨parseFrom_default_is_leftmost _ false (by decide),
   parseFrom_default_is_leftmost _ false (by decide)⟩

/-- C4: when the two subtrees of a join node resolve, `parseFrom` on the node
returns the union of the two sub-scopes: a key of the left sub-scope reads
as the left subtree's entry, also when the right sub-scope has the key, and
any other key reads as in the right sub-scope. -/
theorem parseFrom_join_left_wins (l r : TableExpr) (j : String) (isLeftJoined : Bool)
    (left right : FromTables) (leftMost rightMost : String)
    (hl : parseFrom [l] false = .ok (left, leftMost))
    (hr : parseFrom [r] (decide (j = "left join")) = .ok (right, rightMost)) :
    ∃ scope : FromTables,
      parseFrom [.join l j r] isLeftJoined = .ok (scope, leftMost) ∧
      ∀ k : String, scope.get k = (left.get k).or (right.get k) :=
  ⟨_, parseFrom_join_ok l r j isLeftJoined left right leftMost rightMost hl hr,
    GoMap.get_assignAll left right (parseFrom_singleton_nodup l false left leftMost hl)⟩

/-- C4 at `t1 AS x LEFT JOIN t2 AS x`: the key `x` keeps the left entry. -/
theorem parseFrom_join_left_wins_witness :
    ∃ scope : FromTables,
      parseFrom [.join (.aliased (.tableName { Name := "t1" }) "x") "left join"
        (.aliased (.tableName { Name := "t2" }) "x")] true = .ok (scope, "t1") ∧
      ∀ k : String, scope.get k =
        (GoMap.get [("x", ({ TrueName := "t1", IsLeftJoined := false } : FromTable))] k).or
          (GoMap.get [("x", ({ TrueName := "t2", IsLeftJoined := true } : FromTable))] k) :=
  parseFrom_join_left_wins (.aliased (.tableName { Name := "t1" }) "x")
    (.aliased (.tableName { Name := "t2" }) "x") "left join" true _ _ "t1" "t2"
    (by decide) (by decide)

/-- C6, evaluated on the code: for the FROM list `a JOIN b, (subquery) AS x`
and for `a JOIN b, (c)` `parseFrom` returns the scope of the join and no
error: the return of line 261 leaves the loop before the later expressions
are looked at. -/
theorem parseFrom_skips_exprs_after_join :
    parseFrom [.join (.aliased (.tableName { Name := "a" }) "") "join"
        (.aliased (.tableName { Name := "b" }) ""), .aliased .subquery "x"] false =
      .ok ([("a", { TrueName := "a", IsLeftJoined := false }),
            ("b", { TrueName := "b", IsLeftJoined := false })], "a") ∧
    parseFrom [.join (.aliased (.tableName { Name := "a" }) "") "join"
        (.aliased (.tableName { Name := "b" }) ""),
        .paren [.aliased (.tableName { Name := "c" }) ""]] false =
      .ok ([("a", { TrueName := "a", IsLeftJoined := false }),
            ("b", { TrueName := "b", IsLeftJoined := false })], "a") := by
  decide

/-! ## Projections and inserts: claims -/

section Claims

variable {Settings : Type}

/-- C5, evaluated on the code: the projection list of `SELECT 1 AS x`, one
aliased literal, is bound without an error and yields no column (and so do
an arithmetic expression and a subquery): the switch on `expr.Expr` has no
default case.  Only a projection that is not an `*AliasedExpr`, such as a
wildcard, is refused. -/
theorem parseSelectAliasExpr_drops_literal (h : Helpers Settings) (s : Schema)
    (tableAliasMap : FromTables) (defaultTable : String) :
    parseSelectAliasExpr h [.aliased (.sqlVal .IntVal "1") "x"] s tableAliasMap defaultTable =
      .ok [] ∧
    parseSelectAliasExpr h [.aliased (.binary "+" (.sqlVal .IntVal "1") (.sqlVal .IntVal "2")) "",
      .aliased .subquery "y"] s tableAliasMap defaultTable = .ok [] ∧
    parseSelectAliasExpr h [.aliased (.sqlVal .IntVal "1") "x", .star { Name := "" }] s
      tableAliasMap defaultTable = .error .selectExprType :=
  ⟨rfl, rfl, rfl⟩

/-- C7, evaluated on the code: binding `INSERT INTO t VALUES (?)` (no column
list, one placeholder) panics with an index out of range, for every schema,
every directive and every behaviour of the helper functions: line 335 reads
`cols[0]` of the empty column list before the catalog is consulted. -/
theorem parseInsert_no_columns_panics (h : Helpers Settings) (query : String) (s : Schema)
    (settings : Settings) :
    parseInsert h
        { Table := { Name := "t" }, Columns := [], Rows := .values [[.sqlVal .ValArg ":v1"]] }
        query s settings =
      .panic (.indexOutOfRange 0 0) :=
  rfl

/-- One row of a VALUES list, from the column index `colIx` on: when the
row fits in the remaining columns and all its cells are `*SQLVal`, the loop
appends the row's Params. -/
theorem parseInsertRow_ok (h : Helpers Settings) (s : Schema) (settings : Settings)
    (cols : List String) (tableName : String) (row : List Expr) :
    ∀ (colIx : Nat) (params : List Param), colIx + row.length ≤ cols.length →
      (∀ cell ∈ row, cell.isSQLVal = true) →
      parseInsertRow h s settings cols tableName row colIx params =
        .ok (params ++ rowParams h s settings tableName (cols.drop colIx) row) := by
  induction row with
  | nil => intro colIx params _ _; simp [parseInsertRow, rowParams]
  | cons cell rest ih =>
    intro colIx params hlen hcells
    have hlt : colIx < cols.length := by simp only [List.length_cons] at hlen; omega
    have hrest : colIx + 1 + rest.length ≤ cols.length := by
      simp only [List.length_cons] at hlen; omega
    have hdrop : cols.drop colIx = cols[colIx] :: cols.drop (colIx + 1) :=
      List.drop_eq_getElem_cons hlt
    have hget : cols[colIx]? = some cols[colIx] := List.getElem?_eq_getElem hlt
    have ihr := fun params1 => ih (colIx + 1) params1 hrest
      (fun c hc => hcells c (List.mem_cons_of_mem _ hc))
    have hcell := hcells cell (List.mem_cons_self _ _)
    cases cell with
    | sqlVal typ val =>
      by_cases htyp : typ = ValType.ValArg
      · subst htyp
        simp only [parseInsertRow, if_true, hget, ihr, rowParams, hdrop, List.zip_cons_cons,
          List.filterMap_cons, insertParam, List.append_assoc, List.singleton_append]
      · have hnone : (match ((Expr.sqlVal typ val, cols[colIx]) : Expr × String) with
            | (.sqlVal .ValArg varName, colName) =>
              some (insertParam h s settings tableName colName varName)
            | _ => none) = none := by
          cases typ <;> first | rfl | exact absurd rfl htyp
        simp only [parseInsertRow, htyp, if_false, ihr, rowParams, hdrop, List.zip_cons_cons,
          List.filterMap_cons, hnone]
    | _ => simp [Expr.isSQLVal] at hcell

/-- The rows of a VALUES list: when every row fits in the column list and
all cells are `*SQLVal`, the loop appends the Params of all rows. -/
theorem parseInsertRows_ok (h : Helpers Settings) (s : Schema) (settings : Settings)
    (cols : List String) (tableName : String) (rows : List (List Expr)) :
    ∀ (params : List Param), (∀ row ∈ rows, row.length ≤ cols.length) →
      (∀ row ∈ rows, ∀ cell ∈ row, cell.isSQLVal = true) →
      parseInsertRows h s settings cols tableName rows params =
        .ok (params ++ valuesParams h s settings tableName cols rows) := by
  induction rows with
  | nil => intro params _ _; simp [parseInsertRows, valuesParams]
  | cons row rest ih =>
    intro params hlen hcells
    have hrow := parseInsertRow_ok h s settings cols tableName row 0 params
      (by simpa using hlen row (List.mem_cons_self _ _)) (hcells row (List.mem_cons_self _ _))
    simp only [List.drop_zero] at hrow
    simp only [parseInsertRows, hrow]
    rw [ih _ (fun r hr => hlen r (List.mem_cons_of_mem _ hr))
      (fun r hr => hcells r (List.mem_cons_of_mem _ hr))]
    simp [valuesParams, List.flatMap_cons]

/-- A row that fits in the column list gives one Param per placeholder
cell. -/
theorem length_rowParams (h : Helpers Settings) (s : Schema) (settings : Settings)
    (tableName : String) : ∀ (row : List Expr) (cols : List String),
    row.length ≤ cols.length →
    (rowParams h s settings tableName cols row).length = row.countP Expr.isPlaceholder
  | [], _, _ => by simp [rowParams]
  | cell :: rest, [], hlen => by simp at hlen
  | cell :: rest, col :: cols, hlen => by
    have ih := length_rowParams h s settings tableName rest cols
      (by simpa using hlen)
    simp only [rowParams] at ih ⊢
    cases cell with
    | sqlVal typ val =>
      cases typ <;>
        simp [List.zip_cons_cons, List.filterMap_cons, List.countP_cons, Expr.isPlaceholder, ih]
    | _ => simp [List.zip_cons_cons, List.filterMap_cons, List.countP_cons, Expr.isPlaceholder, ih]

/-- C8: a VALUES insert with a valid directive, rows no longer than the
explicit column list and only literal or placeholder cells is bound
successfully; the Params are those of the placeholder cells, row by row and
left to right, one per placeholder; each is named and typed from the column
found for (target table, column at the cell's position), or is `Unknown` of
type `interface{}` when that lookup fails. -/
theorem parseInsert_values_params (h : Helpers Settings) (node : Insert) (query : String)
    (s : Schema) (settings : Settings) (rows : List (List Expr)) (name cmd : String)
    (hrows : node.Rows = .values rows)
    (hlen : ∀ row ∈ rows, row.length ≤ node.Columns.length)
    (hcells : ∀ row ∈ rows, ∀ cell ∈ row, cell.isSQLVal = true)
    (hmeta : h.parseMetadata (h.splitMarginComments query).2.Leading = .ok (name, cmd))
    (hname : name ≠ "") (hcmd : cmd ≠ "") :
    parseInsert h node query s settings =
      .ok ({ SQL := query, Columns := [], Name := name, Cmd := cmd,
             Params := valuesParams h s settings node.Table.Name node.Columns rows,
             DefaultTableName := node.Table.Name }, node) ∧
    (valuesParams h s settings node.Table.Name node.Columns rows).length =
      placeholderCount rows := by
  constructor
  · have hloop := parseInsertRows_ok h s settings node.Columns node.Table.Name rows [] hlen hcells
    simp only [List.nil_append] at hloop
    simp [parseInsert, hrows, hloop, Query.parseNameAndCmd, hmeta, hname, hcmd]
  · simp only [valuesParams, placeholderCount, List.length_flatMap]
    congr 1
    apply List.map_congr_left
    intro row hrow
    exact length_rowParams h s settings node.Table.Name row node.Columns (hlen row hrow)

/-- C8 at `INSERT INTO t (a, zz) VALUES (?, 'lit'), (?, ?)` with the table
`t (a, b)`: three Params in row-major order, the ones at the unknown column
`zz` degraded to `Unknown`. -/
theorem parseInsert_values_params_witness :
    parseInsert exampleHelpers exampleInsert
        "/* name: Example :exec */ insert" exampleSchema () =
      .ok ({ SQL := "/* name: Example :exec */ insert", Columns := [], Name := "Example",
             Cmd := ":exec",
             Params := [{ OriginalName := ":v1", Name := "a", Typ := "int" },
                        { OriginalName := ":v2", Name := "a", Typ := "int" },
                        { OriginalName := ":v3", Name := "Unknown", Typ := "interface\x7b\x7d" }],
             DefaultTableName := "t" }, exampleInsert) ∧
    (valuesParams exampleHelpers exampleSchema () "t" ["a", "zz"] exampleRows).length =
      placeholderCount exampleRows :=
  parseInsert_values_params exampleHelpers exampleInsert
    "/* name: Example :exec */ insert" exampleSchema () exampleRows "Example" ":exec" rfl
    (by decide) (by decide) rfl (by decide) (by decide)

/-! ## The dispatcher: claims -/

/-- C9, evaluated on the code: binding can panic.  `INSERT INTO t (a) VALUES
(NULL)` and `INSERT INTO t (a) VALUES (now())` reach the `panic` of line 350,
and `INSERT INTO t (a) VALUES (?, ?)` indexes the column list out of range,
for every schema, directive and behaviour of the helper functions. -/
theorem parseQueryString_insert_panics (h : Helpers Settings) (query : String) (s : Schema)
    (settings : Settings) :
    parseQueryString h
        (.insert { Table := { Name := "t" }, Columns := ["a"], Rows := .values [[.nullVal]] })
        query s settings = .panic .insertStatement ∧
    parseQueryString h
        (.insert { Table := { Name := "t" }, Columns := ["a"],
                   Rows := .values [[.funcExpr "" "now" false []]] })
        query s settings = .panic .insertStatement ∧
    parseQueryString h
        (.insert { Table := { Name := "t" }, Columns := ["a"],
                   Rows := .values [[.sqlVal .ValArg ":v1", .sqlVal .ValArg ":v2"]] })
        query s settings = .panic (.indexOutOfRange 1 1) :=
  ⟨rfl, rfl, rfl⟩

/-- C10 as stated fails: a UNION and a SHOW statement, which are not DDL,
come back with neither a Query nor an error. -/
theorem parseQueryString_drops_union :
    parseQueryString exampleHelpers .union "select 1 union select 2" exampleSchema () =
      .ok (none, exampleSchema) ∧
    parseQueryString exampleHelpers .showStmt "show tables" exampleSchema () =
      .ok (none, exampleSchema) :=
  ⟨rfl, rfl⟩

/-- After a binding routine returned a query, lines 142-147 return a Query or
an error. -/
theorem replaceParams_some (h : Helpers Settings) (tree : Statement) (parsedQuery : Query)
    (s : Schema) (r : Option Query × Schema) (hr : replaceParams h tree parsedQuery s = .ok r) :
    ∃ q : Query, r = (some q, s) := by
  unfold replaceParams at hr
  cases hrep : h.replaceParamStrs (h.sqlString tree) parsedQuery.Params with
  | error e => simp [hrep] at hr
  | ok sql =>
    simp only [hrep, Outcome.ok.injEq] at hr
    exact ⟨_, hr.symm⟩

/-- C10, amended: for a select, insert, update or delete statement, whenever
`parseQueryString` returns without an error it returns a Query (and the
schema unchanged), so it returns a Query or an error and never neither; a
statement of any other kind that is not DDL is dropped: neither a Query nor
an error comes back. -/
theorem parseQueryString_query_or_error (h : Helpers Settings) (tree : Statement)
    (query : String) (s : Schema) (settings : Settings) :
    (tree.hasBinder = true → ∀ r : Option Query × Schema,
      parseQueryString h tree query s settings = .ok r → ∃ q : Query, r = (some q, s)) ∧
    (tree.hasBinder = false → tree.isDDL = false →
      parseQueryString h tree query s settings = .ok (none, s)) := by
  constructor
  · intro hkind r hr
    cases tree with
    | select t =>
      simp only [parseQueryString] at hr
      cases hb : parseSelect h t query s settings with
      | panic p => simp [hb] at hr
      | error e => simp [hb] at hr
      | ok v => simp only [hb] at hr; exact replaceParams_some h _ _ s r hr
    | insert t =>
      simp only [parseQueryString] at hr
      cases hb : parseInsert h t query s settings with
      | panic p => simp [hb] at hr
      | error e => simp [hb] at hr
      | ok v => simp only [hb] at hr; exact replaceParams_some h _ _ s r hr
    | update t =>
      simp only [parseQueryString] at hr
      cases hb : parseUpdate h t query s settings with
      | panic p => simp [hb] at hr
      | error e => simp [hb] at hr
      | ok v => simp only [hb] at hr; exact replaceParams_some h _ _ s r hr
    | delete t =>
      simp only [parseQueryString] at hr
      cases hb : parseDelete h t query s settings with
      | panic p => simp [hb] at hr
      | error e => simp [hb] at hr
      | ok v => simp only [hb] at hr; exact replaceParams_some h _ _ s r hr
    | _ => simp [Statement.hasBinder] at hkind
  · intro hkind hddl
    cases tree <;> first
      | rfl
      | (simp [Statement.isDDL] at hddl; done)
      | simp [Statement.hasBinder] at hkind

/-- C10, amended, at `SELECT a FROM t` (a Query comes back) and at a UNION
(nothing comes back). -/
theorem parseQueryString_query_or_error_witness :
    (∀ r : Option Query × Schema,
      parseQueryString exampleHelpers (.select exampleSelect) "/* name: Example :exec */ q"
        exampleSchema () = .ok r → ∃ q : Query, r = (some q, exampleSchema)) ∧
    parseQueryString exampleHelpers .union "select 1 union select 2" exampleSchema () =
      .ok (none, exampleSchema) :=
  ⟨(parseQueryString_query_or_error exampleHelpers (.select exampleSelect)
      "/* name: Example :exec */ q" exampleSchema ()).1 rfl,
   (parseQueryString_query_or_error exampleHelpers .union "select 1 union select 2"
      exampleSchema ()).2 rfl rfl⟩

/-! ## Updates: claims -/

/-- When `parseNameAndCmd` returns without an error, the directive parsed to
a non-empty name and command, and only `Name` and `Cmd` of the query were
written. -/
theorem parseNameAndCmd_ok (h : Helpers Settings) (q q1 : Query)
    (hok : q.parseNameAndCmd h = .ok q1) :
    ∃ name cmd : String,
      h.parseMetadata (h.splitMarginComments q.SQL).2.Leading = .ok (name, cmd) ∧
      name ≠ "" ∧ cmd ≠ "" ∧ q1 = { q with Name := name, Cmd := cmd } := by
  unfold Query.parseNameAndCmd at hok
  cases hmeta : h.parseMetadata (h.splitMarginComments q.SQL).2.Leading with
  | error e => simp [hmeta] at hok
  | ok nc =>
    obtain ⟨name, cmd⟩ := nc
    simp only [hmeta] at hok
    by_cases hempty : name = "" ∨ cmd = ""
    · simp [hempty] at hok
    · simp only [hempty, if_false, Outcome.ok.injEq] at hok
      exact ⟨name, cmd, rfl, fun hn => hempty (Or.inl hn), fun hc => hempty (Or.inr hc),
        hok.symm⟩

/-- The method `parseNameAndCmd` does not panic. -/
theorem parseNameAndCmd_no_panic (h : Helpers Settings) (q : Query) (p : Panic) :
    q.parseNameAndCmd h ≠ .panic p := by
  unfold Query.parseNameAndCmd
  cases hmeta : h.parseMetadata (h.splitMarginComments q.SQL).2.Leading with
  | error e => simp [hmeta]
  | ok nc =>
    obtain ⟨name, cmd⟩ := nc
    by_cases hempty : name = "" ∨ cmd = "" <;> simp [hmeta, hempty]

/-- The SET loop, when it ends without an error, has appended the Params of
the SET clause, one per placeholder assignment. -/
theorem parseUpdateExprs_ok (h : Helpers Settings) (s : Schema) (settings : Settings)
    (tableAliasMap : FromTables) (defaultTable : String) (exprs : List UpdateExpr) :
    ∀ (params result : List Param),
      parseUpdateExprs h s settings tableAliasMap defaultTable exprs params = .ok result →
      result = params ++ setParams h s settings tableAliasMap defaultTable exprs ∧
      (setParams h s settings tableAliasMap defaultTable exprs).length =
        exprs.countP (fun u => u.Expr.isPlaceholder) := by
  induction exprs with
  | nil =>
    intro params result hres
    simp only [parseUpdateExprs, Outcome.ok.injEq] at hres
    simp [setParams, hres]
  | cons u rest ih =>
    intro params result hres
    obtain ⟨name, expr⟩ := u
    cases expr with
    | sqlVal typ val =>
      by_cases htyp : typ = ValType.ValArg
      · subst htyp
        simp only [parseUpdateExprs, ne_eq, not_true_eq_false, if_false] at hres
        cases hcol : h.getColType s name tableAliasMap defaultTable with
        | error e => simp [hcol] at hres
        | ok colDfn =>
          simp only [hcol] at hres
          obtain ⟨hr, hl⟩ := ih _ _ hres
          simp only [setParams] at hr hl ⊢
          simp [List.filterMap_cons, setParam, hcol, hr, hl, List.countP_cons,
            Expr.isPlaceholder]
      · simp only [parseUpdateExprs, ne_eq, htyp, not_false_eq_true, if_true] at hres
        obtain ⟨hr, hl⟩ := ih _ _ hres
        simp only [setParams] at hr hl ⊢
        cases typ <;>
          first
          | exact absurd rfl htyp
          | simp [List.filterMap_cons, setParam, hr, hl, List.countP_cons, Expr.isPlaceholder]
    | _ =>
      simp only [parseUpdateExprs] at hres
      obtain ⟨hr, hl⟩ := ih _ _ hres
      simp only [setParams] at hr hl ⊢
      simp [List.filterMap_cons, setParam, hr, hl, List.countP_cons, Expr.isPlaceholder]

/-- C11: when `parseUpdate` binds an UPDATE statement, the Params of the
query are the Params of the SET clause (one for each assignment whose
right-hand side is a placeholder, in SET order, named after the assigned
column) followed by the parameters the WHERE collector returned, and the
Columns list is empty. -/
theorem parseUpdate_params (h : Helpers Settings) (node : Update) (query : String) (s : Schema)
    (settings : Settings) (q : Query) (hok : parseUpdate h node query s settings = .ok q) :
    ∃ (tableAliasMap : FromTables) (defaultTable : String) (whereParams : List Param),
      parseFrom node.TableExprs false = .ok (tableAliasMap, defaultTable) ∧
      h.paramsInWhereExpr node.Where s tableAliasMap defaultTable settings = .ok whereParams ∧
      q.Params =
        setParams h s settings tableAliasMap defaultTable node.Exprs ++ whereParams ∧
      (setParams h s settings tableAliasMap defaultTable node.Exprs).length =
        node.Exprs.countP (fun u => u.Expr.isPlaceholder) ∧
      q.Columns = [] := by
  unfold parseUpdate at hok
  cases hfrom : parseFrom node.TableExprs false with
  | panic p => simp [hfrom] at hok
  | error e => simp [hfrom] at hok
  | ok scope =>
    obtain ⟨tableAliasMap, defaultTable⟩ := scope
    simp only [hfrom] at hok
    cases hset : parseUpdateExprs h s settings tableAliasMap defaultTable node.Exprs [] with
    | panic p => simp [hset] at hok
    | error e => simp [hset] at hok
    | ok params =>
      simp only [hset] at hok
      cases hwhere : h.paramsInWhereExpr node.Where s tableAliasMap defaultTable settings with
      | error e => simp [hwhere] at hok
      | ok whereParams =>
        simp only [hwhere] at hok
        obtain ⟨hparams, hlen⟩ := parseUpdateExprs_ok h s settings tableAliasMap defaultTable
          node.Exprs [] params hset
        simp only [List.nil_append] at hparams
        obtain ⟨name, cmd, _, _, _, hq⟩ := parseNameAndCmd_ok h _ q hok
        refine ⟨tableAliasMap, defaultTable, whereParams, rfl, hwhere, ?_, hlen, ?_⟩
        · rw [hq, hparams]
        · rw [hq]

/-- C11 at `UPDATE t SET a = ?, b = 'x' WHERE b = ?`: the Params are the
Param of `a` and then the Param of the WHERE clause. -/
theorem parseUpdate_params_witness :
    parseUpdate exampleHelpersWhere exampleUpdate "/* name: Example :exec */ u" exampleSchema () =
      .ok { SQL := "/* name: Example :exec */ u", Columns := [], Name := "Example",
            Cmd := ":exec", DefaultTableName := "t",
            Params := [{ OriginalName := ":v1", Name := "a", Typ := "int" },
                       { OriginalName := ":v2", Name := "b", Typ := "text" }] } ∧
    ∃ (tableAliasMap : FromTables) (defaultTable : String) (whereParams : List Param),
      parseFrom exampleUpdate.TableExprs false = .ok (tableAliasMap, defaultTable) ∧
      exampleHelpersWhere.paramsInWhereExpr exampleUpdate.Where exampleSchema tableAliasMap
        defaultTable () = .ok whereParams ∧
      [{ OriginalName := ":v1", Name := "a", Typ := "int" },
        ({ OriginalName := ":v2", Name := "b", Typ := "text" } : Param)] =
        setParams exampleHelpersWhere exampleSchema () tableAliasMap defaultTable
          exampleUpdate.Exprs ++ whereParams ∧
      (setParams exampleHelpersWhere exampleSchema () tableAliasMap defaultTable
        exampleUpdate.Exprs).length =
        exampleUpdate.Exprs.countP (fun u => u.Expr.isPlaceholder) ∧
      ([] : List Column) = [] :=
  ⟨by decide, parseUpdate_params exampleHelpersWhere exampleUpdate
    "/* name: Example :exec */ u" exampleSchema ()
    { SQL := "/* name: Example :exec */ u", Columns := [], Name := "Example",
      Cmd := ":exec", DefaultTableName := "t",
      Params := [{ OriginalName := ":v1", Name := "a", Typ := "int" },
                 { OriginalName := ":v2", Name := "b", Typ := "text" }] } (by decide)⟩

/-! ## Wildcards: claims -/

/-- The projection loop on the column references of a table whose lookups
succeed: one column per reference, in order, named as the reference and
with the table the reference resolves to. -/
theorem parseSelectAliasExprLoop_columnRefs (h : Helpers Settings) (s : Schema)
    (tableAliasMap : FromTables) (defaultTable : String) (cols : List ColumnDefinition)
    (hcol : ∀ c ∈ cols, ∃ res : ColumnDefinition,
      h.getColType s { Name := c.Name } tableAliasMap defaultTable = .ok res ∧
      res.Name = c.Name)
    (htab : ∀ c ∈ cols,
      (h.tableColReferences { Name := c.Name } defaultTable tableAliasMap).1.TrueName =
        defaultTable) :
    ∀ acc : List Column, ∃ columns : List Column,
      parseSelectAliasExprLoop h s tableAliasMap defaultTable (columnRefs cols) acc =
        .ok (acc ++ columns) ∧
      columns.map (fun col => col.ColumnDefinition.Name) = cols.map (fun c => c.Name) ∧
      ∀ col ∈ columns, col.Table = defaultTable := by
  induction cols with
  | nil =>
    intro acc
    exact ⟨[], by simp [columnRefs, parseSelectAliasExprLoop], rfl, by simp⟩
  | cons c rest ih =>
    intro acc
    obtain ⟨res, hres, hname⟩ := hcol c (List.mem_cons_self _ _)
    have htabc := htab c (List.mem_cons_self _ _)
    obtain ⟨columns, hloop, hnames, htables⟩ :=
      ih (fun c1 hc1 => hcol c1 (List.mem_cons_of_mem _ hc1))
        (fun c1 hc1 => htab c1 (List.mem_cons_of_mem _ hc1))
        (acc ++ [{ ColumnDefinition := res, Table := defaultTable }])
    refine ⟨{ ColumnDefinition := res, Table := defaultTable } :: columns, ?_, ?_, ?_⟩
    · simp only [columnRefs, List.map_cons] at hloop ⊢
      simp only [parseSelectAliasExprLoop, hres, htabc, ne_eq, not_true_eq_false,
        decide_False, Bool.false_eq_true, if_false]
      rw [hloop]
      simp
    · simp [hname, hnames]
    · intro col hmem
      rcases List.mem_cons.mp hmem with hhead | htail
      · rw [hhead]
      · exact htables col htail

/-- C12: for `SELECT * FROM A` with a valid directive, where `A` has the
declared columns `c1..cn` and each unqualified lookup of a `ci` against the
default table succeeds (it returns a definition named `ci`, and the
reference resolves to the table `A`), `parseSelect` rewrites the projection
list to the references `c1..cn` and returns exactly `n` columns, named
`c1..cn` in declared order, each with the table `A`. -/
theorem parseSelect_star_columns (h : Helpers Settings) (tree : Select) (query : String)
    (s : Schema) (settings : Settings) (A : TableName) (As : String)
    (cols : List ColumnDefinition) (whereParams limitParams : List Param) (name cmd : String)
    (hfrom : tree.From = [.aliased (.tableName A) As])
    (hsel : tree.SelectExprs = [.star { Name := "" }])
    (htable : s.tables.get A.Name = some cols)
    (hcol : ∀ c ∈ cols, ∃ res : ColumnDefinition,
      h.getColType s { Name := c.Name }
        [(scopeKey A As, { TrueName := A.Name, IsLeftJoined := false })] A.Name = .ok res ∧
      res.Name = c.Name)
    (htab : ∀ c ∈ cols,
      (h.tableColReferences { Name := c.Name } A.Name
        [(scopeKey A As, { TrueName := A.Name, IsLeftJoined := false })]).1.TrueName = A.Name)
    (hwhere : h.paramsInWhereExpr tree.Where s
      [(scopeKey A As, { TrueName := A.Name, IsLeftJoined := false })] A.Name settings =
        .ok whereParams)
    (hlimit : h.paramsInLimitExpr tree.Limit s
      [(scopeKey A As, { TrueName := A.Name, IsLeftJoined := false })] settings =
        .ok limitParams)
    (hmeta : h.parseMetadata (h.splitMarginComments query).2.Leading = .ok (name, cmd))
    (hname : name ≠ "") (hcmd : cmd ≠ "") :
    ∃ (q : Query),
      parseSelect h tree query s settings =
        .ok (q, { tree with SelectExprs := columnRefs cols }) ∧
      q.Columns.length = cols.length ∧
      q.Columns.map (fun col => col.ColumnDefinition.Name) = cols.map (fun c => c.Name) ∧
      ∀ col ∈ q.Columns, col.Table = A.Name := by
  obtain ⟨columns, hloop, hnames, htables⟩ :=
    parseSelectAliasExprLoop_columnRefs h s _ A.Name cols hcol htab []
  simp only [List.nil_append] at hloop
  have hlen : columns.length = cols.length := by
    have := congrArg List.length hnames
    simpa using this
  refine ⟨{ SQL := query, Columns := columns, Params := whereParams ++ limitParams,
            Name := name, Cmd := cmd, DefaultTableName := A.Name }, ?_, hlen, hnames, htables⟩
  simp [parseSelect, hfrom, parseFrom_leaf, hsel, expandStar, htable, parseSelectAliasExpr,
    columnRefs] at hloop ⊢
  simp [hloop, hwhere, hlimit, Query.parseNameAndCmd, hmeta, hname, hcmd]

/-- C12 at `SELECT * FROM t` with `t (a, b)`: the projection list becomes
`a, b` and the two columns `a`, `b` of the table `t` come back. -/
theorem parseSelect_star_columns_witness :
    ∃ (q : Query),
      parseSelect exampleHelpers exampleSelectStar "/* name: Example :exec */ s" exampleSchema
        () = .ok (q, { exampleSelectStar with SelectExprs := columnRefs exampleColumns }) ∧
      q.Columns.length = 2 ∧
      q.Columns.map (fun col => col.ColumnDefinition.Name) = ["a", "b"] ∧
      ∀ col ∈ q.Columns, col.Table = "t" :=
  parseSelect_star_columns exampleHelpers exampleSelectStar "/* name: Example :exec */ s"
    exampleSchema () { Name := "t" } "" exampleColumns [] [] "Example" ":exec"
    rfl rfl (by decide)
    (by
      intro c hc
      simp only [exampleColumns, List.mem_cons, List.mem_singleton, List.not_mem_nil,
        or_false] at hc
      rcases hc with hc | hc <;> subst hc <;> exact ⟨_, rfl, rfl⟩)
    (by intro c _; rfl) rfl rfl rfl (by decide) (by decide)

/-! ## The directive: claims -/

/-- A query that `parseNameAndCmd` returns carries the directive of its
text. -/
theorem parseNameAndCmd_directive (h : Helpers Settings) (q q1 : Query)
    (hok : q.parseNameAndCmd h = .ok q1) : validDirective h q.SQL ∧ q1.hasDirective := by
  obtain ⟨name, cmd, hmeta, hname, hcmd, hq⟩ := parseNameAndCmd_ok h q q1 hok
  exact ⟨⟨name, cmd, hmeta, hname, hcmd⟩, by rw [hq]; exact ⟨hname, hcmd⟩⟩

/-- The function `parseSelect` after a FROM list that resolves and on a
projection list that is not empty: projections, WHERE, LIMIT, directive. -/
theorem parseSelect_eq (h : Helpers Settings) (tree : Select) (query : String) (s : Schema)
    (settings : Settings) (tableAliasMap : FromTables) (defaultTableName : String)
    (first : SelectExpr) (rest : List SelectExpr)
    (hfrom : parseFrom tree.From false = .ok (tableAliasMap, defaultTableName))
    (hsel : tree.SelectExprs = first :: rest) :
    parseSelect h tree query s settings =
      match parseSelectAliasExpr h (expandStar s defaultTableName first (first :: rest)) s
          tableAliasMap defaultTableName with
      | .panic p => .panic p
      | .error err => .error err
      | .ok cols =>
        match h.paramsInWhereExpr tree.Where s tableAliasMap defaultTableName settings with
        | .error err => .error err
        | .ok whereParams =>
          match h.paramsInLimitExpr tree.Limit s tableAliasMap settings with
          | .error err => .error err
          | .ok limitParams =>
            match Query.parseNameAndCmd h
                { SQL := query, Columns := cols, Params := whereParams ++ limitParams,
                  DefaultTableName := defaultTableName } with
            | .panic p => .panic p
            | .error err => .error err
            | .ok parsedQuery =>
              .ok (parsedQuery, { tree with
                SelectExprs := expandStar s defaultTableName first (first :: rest) }) := by
  simp only [parseSelect, hfrom, hsel]

/-- A Query that `parseSelect` returns has a non-empty name and command, and
the directive of the statement text is valid. -/
theorem parseSelect_directive (h : Helpers Settings) (tree : Select) (query : String)
    (s : Schema) (settings : Settings) (q : Query) (tree1 : Select)
    (hok : parseSelect h tree query s settings = .ok (q, tree1)) :
    validDirective h query ∧ q.hasDirective := by
  cases hfrom : parseFrom tree.From false with
  | panic p => simp [parseSelect, hfrom] at hok
  | error e => simp [parseSelect, hfrom] at hok
  | ok scope =>
    obtain ⟨tableAliasMap, defaultTableName⟩ := scope
    cases hsel : tree.SelectExprs with
    | nil => simp [parseSelect, hfrom, hsel] at hok
    | cons first rest =>
      rw [parseSelect_eq h tree query s settings _ _ first rest hfrom hsel] at hok
      cases hcols : parseSelectAliasExpr h (expandStar s defaultTableName first (first :: rest)) s
          tableAliasMap defaultTableName with
      | panic p => simp [hcols] at hok
      | error e => simp [hcols] at hok
      | ok cols =>
        simp only [hcols] at hok
        cases hw : h.paramsInWhereExpr tree.Where s tableAliasMap defaultTableName settings with
        | error e => simp [hw] at hok
        | ok whereParams =>
          simp only [hw] at hok
          cases hl : h.paramsInLimitExpr tree.Limit s tableAliasMap settings with
          | error e => simp [hl] at hok
          | ok limitParams =>
            simp only [hl] at hok
            cases hn : Query.parseNameAndCmd h
                { SQL := query, Columns := cols, Params := whereParams ++ limitParams,
                  DefaultTableName := defaultTableName } with
            | panic p => simp [hn] at hok
            | error e => simp [hn] at hok
            | ok q1 =>
              simp only [hn, Outcome.ok.injEq, Prod.mk.injEq] at hok
              rw [← hok.1]
              exact parseNameAndCmd_directive h _ q1 hn

/-- A Query that `parseUpdate` returns has a non-empty name and command, and
the directive of the statement text is valid. -/
theorem parseUpdate_directive (h : Helpers Settings) (node : Update) (query : String)
    (s : Schema) (settings : Settings) (q : Query)
    (hok : parseUpdate h node query s settings = .ok q) :
    validDirective h query ∧ q.hasDirective := by
  unfold parseUpdate at hok
  repeat' split at hok
  all_goals first
    | (simp at hok; done)
    | exact parseNameAndCmd_directive h _ q hok

/-- A Query that `parseDelete` returns has a non-empty name and command, and
the directive of the statement text is valid. -/
theorem parseDelete_directive (h : Helpers Settings) (node : Delete) (query : String)
    (s : Schema) (settings : Settings) (q : Query)
    (hok : parseDelete h node query s settings = .ok q) :
    validDirective h query ∧ q.hasDirective := by
  unfold parseDelete at hok
  repeat' split at hok
  all_goals first
    | (simp at hok; done)
    | exact parseNameAndCmd_directive h _ q hok

/-- A Query that `parseInsert` returns has a non-empty name and command, and
the directive of the statement text is valid. -/
theorem parseInsert_directive (h : Helpers Settings) (node : Insert) (query : String)
    (s : Schema) (settings : Settings) (q : Query) (node1 : Insert)
    (hok : parseInsert h node query s settings = .ok (q, node1)) :
    validDirective h query ∧ q.hasDirective := by
  unfold parseInsert at hok
  simp only at hok
  split at hok
  · simp at hok
  · simp at hok
  · rename_i params node2 _
    split at hok
    · simp at hok
    · simp at hok
    · rename_i q1 hq1
      simp only [Outcome.ok.injEq, Prod.mk.injEq] at hok
      have := parseNameAndCmd_directive h _ q1 hq1
      rw [← hok.1]
      exact this

/-- One iteration of the loop of `parseFrom` does not panic. -/
theorem parseFromExpr_no_panic : ∀ (expr : TableExpr) (isLeftJoined : Bool) (tables : FromTables)
    (p : Panic), parseFromExpr isLeftJoined tables expr ≠ .panic p
  | .aliased .subquery _, _, _, _ => by simp [parseFromExpr]
  | .aliased (.tableName name) As, _, _, _ => by
    by_cases hAs : As = "" <;> simp [parseFromExpr, hAs]
  | .paren _, _, _, _ => by simp [parseFromExpr]
  | .join l j r, isLeftJoined, tables, p => by
    rw [parseFromExpr_join, parseFrom_singleton, parseFrom_singleton]
    have hl := parseFromExpr_no_panic l false []
    have hr := parseFromExpr_no_panic r (decide (j = "left join")) []
    cases hle : parseFromExpr false [] l with
    | panic p1 => exact absurd hle (hl p1)
    | error e => simp [FromStep.finish]
    | ok stepl =>
      cases hre : parseFromExpr (decide (j = "left join")) [] r with
      | panic p1 => exact absurd hre (hr p1)
      | error e => simp [FromStep.finish]
      | ok stepr => simp [FromStep.finish]

/-- The function `parseFrom` does not panic. -/
theorem parseFrom_no_panic (frm : List TableExpr) (isLeftJoined : Bool) (p : Panic) :
    parseFrom frm isLeftJoined ≠ .panic p := by
  unfold parseFrom
  generalize ([] : FromTables) = tables
  generalize "" = d
  induction frm generalizing tables d with
  | nil => simp [parseFromLoop]
  | cons expr rest ih =>
    simp only [parseFromLoop]
    cases hstep : parseFromExpr isLeftJoined tables expr with
    | panic p1 => exact absurd hstep (parseFromExpr_no_panic expr isLeftJoined tables p1)
    | error e => simp
    | ok step =>
      cases step with
      | next t1 d1 => exact ih t1 d1
      | returned t1 d1 => simp

/-- C13, evaluated on the code: for `INSERT INTO t (a) VALUES (NULL)`, with
any statement text and so with a missing or malformed directive too,
`parseInsert` panics at line 350 and returns no error: the VALUES loop runs
before `parseNameAndCmd` is called. -/
theorem parseInsert_panics_before_directive (h : Helpers Settings) (query : String)
    (s : Schema) (settings : Settings) :
    parseInsert h exampleInsertNull query s settings = .panic .insertStatement ∧
    (parseInsert h exampleInsertNull query s settings).isError = false :=
  ⟨rfl, rfl⟩

/-! ## Files: claims -/

/-- C14, evaluated on the code: for a path that lists the one file
`missing.sql`, which cannot be read, `parsePath` returns an aggregate error
with two entries for that file (lines 44 and 48 both add one); and for a
path whose one file holds `insert into t (a) values (null)` it panics, so no
later file would be attempted. -/
theorem parsePath_unreadable_file_twice (h : Helpers Settings) (s : Schema)
    (settings : Settings) :
    parsePath h exampleFiles "unreadable" "pkg" s settings =
      .parserErr
        [{ Filename := "missing.sql", Source := "", Loc := 0,
           Err := .read (.helper "no such file") },
         { Filename := "missing.sql", Source := "", Loc := 0,
           Err := .read (.helper "no such file") }] s ∧
    parsePath h exampleFiles "crash" "pkg" s settings = .panic .insertStatement :=
  ⟨rfl, rfl⟩

/-- C15, evaluated on the code: on the text `insert into t (a) values
(null)` `parseContents` panics in the binding of its one statement; it
returns neither a positioned error nor a list of queries. -/
theorem parseContents_panics (h : Helpers Settings) (s : Schema) (settings : Settings) :
    parseContents h exampleFiles "null.sql" "insert into t (a) values (null)" s settings =
      .panic .insertStatement :=
  rfl

/-- A statement that is not DDL leaves the schema as it was. -/
theorem parseQueryString_schema (h : Helpers Settings) (tree : Statement) (query : String)
    (s : Schema) (settings : Settings) (hddl : tree.isDDL = false)
    (r : Option Query × Schema) (hok : parseQueryString h tree query s settings = .ok r) :
    r.2 = s := by
  cases tree with
  | select t =>
    simp only [parseQueryString] at hok
    cases hb : parseSelect h t query s settings with
    | panic p => simp [hb] at hok
    | error e => simp [hb] at hok
    | ok v =>
      simp only [hb] at hok
      obtain ⟨q, hq⟩ := replaceParams_some h _ _ s r hok
      rw [hq]
  | insert t =>
    simp only [parseQueryString] at hok
    cases hb : parseInsert h t query s settings with
    | panic p => simp [hb] at hok
    | error e => simp [hb] at hok
    | ok v =>
      simp only [hb] at hok
      obtain ⟨q, hq⟩ := replaceParams_some h _ _ s r hok
      rw [hq]
  | update t =>
    simp only [parseQueryString] at hok
    cases hb : parseUpdate h t query s settings with
    | panic p => simp [hb] at hok
    | error e => simp [hb] at hok
    | ok v =>
      simp only [hb] at hok
      obtain ⟨q, hq⟩ := replaceParams_some h _ _ s r hok
      rw [hq]
  | delete t =>
    simp only [parseQueryString] at hok
    cases hb : parseDelete h t query s settings with
    | panic p => simp [hb] at hok
    | error e => simp [hb] at hok
    | ok v =>
      simp only [hb] at hok
      obtain ⟨q, hq⟩ := replaceParams_some h _ _ s r hok
      rw [hq]
  | ddl t => simp [Statement.isDDL] at hddl
  | _ =>
    simp only [parseQueryString, Outcome.ok.injEq] at hok
    rw [← hok]

/-- A text without DDL statements leaves the schema as it was, whether
`parseContents` returns queries or an error. -/
theorem parseContentsLoop_schema (h : Helpers Settings) (fh : FileHelpers)
    (filename contents : String) (settings : Settings) (syntaxError : Option String)
    (stmts : List (Statement × Nat)) (hddl : ∀ st ∈ stmts, st.1.isDDL = false) :
    ∀ (queries : List Query) (start : Nat) (s : Schema),
      (∀ qs s1, parseContentsLoop h fh filename contents settings syntaxError stmts queries
        start s = .ok qs s1 → s1 = s) ∧
      (∀ e s1, parseContentsLoop h fh filename contents settings syntaxError stmts queries
        start s = .error e s1 → s1 = s) := by
  induction stmts with
  | nil =>
    intro queries start s
    cases syntaxError with
    | none => simp [parseContentsLoop]
    | some err =>
      simp only [parseContentsLoop]
      cases fh.nearStrFromSyntaxErr err <;> simp
  | cons st rest ih =>
    intro queries start s
    obtain ⟨q, position⟩ := st
    have hq : q.isDDL = false := hddl (q, position) (List.mem_cons_self _ _)
    have ihr := ih (fun st1 hst1 => hddl st1 (List.mem_cons_of_mem _ hst1))
    simp only [parseContentsLoop]
    cases sliceQuery contents start position with
    | none => simp
    | some query =>
      cases hbind : parseQueryString h q query s settings with
      | panic p => simp [hbind]
      | error e => simp [hbind]
      | ok r =>
        obtain ⟨result, s1⟩ := r
        have hs1 : s1 = s := parseQueryString_schema h q query s settings hq _ hbind
        subst hs1
        simp only [hbind]
        cases result with
        | none => exact ihr queries position s1
        | some result => exact ihr _ position s1

/-- A list of files without DDL statements leaves the schema as it was,
whatever `parsePath` returns. -/
theorem parsePathLoop_schema (h : Helpers Settings) (fh : FileHelpers) (inPkg : String)
    (settings : Settings) (files : List String)
    (hddl : ∀ f ∈ files, ∀ blob, fh.readFile f = .ok blob →
      (fh.tokenize (fh.removeRollbackStatements blob)).noDDL) :
    ∀ (parseErrors : List FileErr) (parsedQueries : List Query) (s s2 : Schema),
      (parsePathLoop h fh inPkg settings files parseErrors parsedQueries s).schema = some s2 →
      s2 = s := by
  induction files with
  | nil =>
    intro parseErrors parsedQueries s s2 hs
    simp only [parsePathLoop] at hs
    by_cases herrs : parseErrors.length > 0
    · simp only [herrs, if_true, PathResult.schema, Option.some.injEq] at hs
      exact hs.symm
    · simp only [herrs, if_false, PathResult.schema, Option.some.injEq] at hs
      exact hs.symm
  | cons f rest ih =>
    intro parseErrors parsedQueries s s2 hs
    have ihr := ih (fun f1 hf1 => hddl f1 (List.mem_cons_of_mem _ hf1))
    simp only [parsePathLoop] at hs
    cases hread : fh.readFile f with
    | error e =>
      simp only [hread] at hs
      exact ihr _ _ s s2 hs
    | ok blob =>
      simp only [hread] at hs
      have hno := hddl f (List.mem_cons_self _ _) blob hread
      have hcont := parseContentsLoop_schema h fh f (fh.removeRollbackStatements blob) settings
        (fh.tokenize (fh.removeRollbackStatements blob)).syntaxError
        (fh.tokenize (fh.removeRollbackStatements blob)).statements hno [] 0 s
      cases hc : parseContents h fh f (fh.removeRollbackStatements blob) s settings with
      | panic p => simp [hc, PathResult.schema] at hs
      | error e s1 =>
        simp only [hc] at hs
        have hs1 : s1 = s := hcont.2 e s1 hc
        subst hs1
        exact ihr _ _ s1 s2 hs
      | ok qs s1 =>
        simp only [hc] at hs
        have hs1 : s1 = s := hcont.1 qs s1 hc
        subst hs1
        exact ihr _ _ s1 s2 hs

/-- C16 as stated fails: after the schema path gave the table map with the
one table `t`, the query path, whose file holds `create table u`, leaves a
table map with `u` and `t`; `GeneratePkg` returns that schema. -/
theorem parsePath_query_file_mutates_schema :
    parsePath exampleHelpers exampleFiles "schema" "pkg" exampleFiles.newSchema () =
      .ok { Queries := [], Schema := exampleSchema, packageName := "pkg" } ∧
    parsePath exampleHelpers exampleFiles "queries" "pkg" exampleSchema () =
      .ok { Queries := [], packageName := "pkg", Schema :=
        { tables := ("u", [{ Name := "a", Type_ := { Type_ := "int", NotNull := true } }]) ::
            exampleSchema.tables } } ∧
    GeneratePkg exampleHelpers exampleFiles "pkg" "schema" "queries" () =
      .ok { Queries := [], packageName := "pkg", Schema :=
        { tables := ("u", [{ Name := "a", Type_ := { Type_ := "int", NotNull := true } }]) ::
            exampleSchema.tables } } ∧
    (("u", [{ Name := "a", Type_ := { Type_ := "int", NotNull := true } }]) ::
      exampleSchema.tables : GoMap (List ColumnDefinition)) ≠ exampleSchema.tables := by
  refine ⟨by decide, by decide, by decide, by decide⟩

/-- C16, amended: when no statement of any file of the query path is DDL,
the schema after the second `parsePath` call is the schema after the first,
whatever else the files contain and whether the call returns queries or an
error; a DDL statement, in whichever file it stands, is applied to the
schema by `s.Add`. -/
theorem parsePath_schema_unchanged (h : Helpers Settings) (fh : FileHelpers)
    (querysPath inPkg : String) (settings : Settings) (s1 : Schema) :
    ((∀ files, fh.readSQLFiles querysPath = .ok files →
        ∀ f ∈ files, ∀ blob, fh.readFile f = .ok blob →
          (fh.tokenize (fh.removeRollbackStatements blob)).noDDL) →
      ∀ s2, (parsePath h fh querysPath inPkg s1 settings).schema = some s2 → s2 = s1) ∧
    (∀ (tree : DDL) (query : String),
      parseQueryString h (.ddl tree) query s1 settings = .ok (none, h.schemaAdd s1 tree)) := by
  constructor
  · intro hddl s2 hs
    unfold parsePath at hs
    cases hfiles : fh.readSQLFiles querysPath with
    | error e =>
      simp only [hfiles, PathResult.schema, Option.some.injEq] at hs
      exact hs.symm
    | ok files =>
      simp only [hfiles] at hs
      exact parsePathLoop_schema h fh inPkg settings files (hddl files hfiles) [] [] s1 s2 hs
  · intro tree query
    rfl

/-- C16, amended, at the query path `plain`, whose one file holds a select:
the schema stays `exampleSchema`. -/
theorem parsePath_schema_unchanged_witness :
    (parsePath exampleHelpers exampleFiles "plain" "pkg" exampleSchema ()).schema =
      some exampleSchema ∧
    (∀ s2, (parsePath exampleHelpers exampleFiles "plain" "pkg" exampleSchema ()).schema =
      some s2 → s2 = exampleSchema) :=
  ⟨by decide,
   (parsePath_schema_unchanged exampleHelpers exampleFiles "plain" "pkg" () exampleSchema).1
    (by
      intro files hfiles f hf blob hblob
      have hfiles1 : files = ["select.sql"] := by
        have : exampleFiles.readSQLFiles "plain" = .ok ["select.sql"] := rfl
        rw [this] at hfiles
        simp only [Except.ok.injEq] at hfiles
        exact hfiles.symm
      subst hfiles1
      simp only [List.mem_singleton] at hf
      subst hf
      have hblob1 : blob = "/* name: Example :exec */ select a from t" := by
        have : exampleFiles.readFile "select.sql" =
            .ok "/* name: Example :exec */ select a from t" := rfl
        rw [this] at hblob
        simp only [Except.ok.injEq] at hblob
        exact hblob.symm
      subst hblob1
      intro st hst
      have htok : (exampleFiles.tokenize (exampleFiles.removeRollbackStatements
          "/* name: Example :exec */ select a from t")).statements =
          [(.select exampleSelect, 42)] := rfl
      rw [htok] at hst
      simp only [List.mem_singleton] at hst
      subst hst
      rfl)⟩

/-! ## Deletes and the predicate machinery: claims -/

/-- The function `parseDelete` is the predicate machinery followed by the
directive, with an empty Columns list. -/
theorem parseDelete_eq (h : Helpers Settings) (node : Delete) (query : String) (s : Schema)
    (settings : Settings) :
    parseDelete h node query s settings =
      match fromWhereLimit h node.TableExprs node.Where node.Limit s settings with
      | .panic p => .panic p
      | .error err => .error err
      | .ok (params, defaultTableName) =>
        Query.parseNameAndCmd h
          { SQL := query, Params := params, Columns := [],
            DefaultTableName := defaultTableName } := by
  unfold parseDelete fromWhereLimit
  cases parseFrom node.TableExprs false with
  | panic p => rfl
  | error e => rfl
  | ok scope =>
    obtain ⟨tableAliasMap, defaultTableName⟩ := scope
    simp only
    cases h.paramsInWhereExpr node.Where s tableAliasMap defaultTableName settings with
    | error e => rfl
    | ok whereParams =>
      simp only
      cases h.paramsInLimitExpr node.Limit s tableAliasMap settings with
      | error e => rfl
      | ok limitParams => rfl

/-- When the predicate machinery fails on the clauses of a select,
`parseSelect` does not return a query; when it succeeds, a query that
`parseSelect` returns has its Params and its default table name. -/
theorem parseSelect_fromWhereLimit (h : Helpers Settings) (tree : Select) (query : String)
    (s : Schema) (settings : Settings) :
    (∀ err, fromWhereLimit h tree.From tree.Where tree.Limit s settings = .error err →
      ∀ r, parseSelect h tree query s settings ≠ .ok r) ∧
    (∀ params defaultTableName,
      fromWhereLimit h tree.From tree.Where tree.Limit s settings =
        .ok (params, defaultTableName) →
      ∀ q tree1, parseSelect h tree query s settings = .ok (q, tree1) →
        q.Params = params ∧ q.DefaultTableName = defaultTableName) := by
  unfold fromWhereLimit
  cases hfrom : parseFrom tree.From false with
  | panic p => simp
  | error e => simp [parseSelect, hfrom]
  | ok scope =>
    obtain ⟨tableAliasMap, defaultTableName⟩ := scope
    cases hsel : tree.SelectExprs with
    | nil => simp [parseSelect, hfrom, hsel]
    | cons first rest =>
      rw [parseSelect_eq h tree query s settings _ _ first rest hfrom hsel]
      simp only
      cases parseSelectAliasExpr h (expandStar s defaultTableName first (first :: rest)) s
          tableAliasMap defaultTableName with
      | panic p => simp
      | error e => simp
      | ok cols =>
        simp only
        cases h.paramsInWhereExpr tree.Where s tableAliasMap defaultTableName settings with
        | error e => simp
        | ok whereParams =>
          simp only
          cases h.paramsInLimitExpr tree.Limit s tableAliasMap settings with
          | error e => simp
          | ok limitParams =>
            simp only
            cases hn : Query.parseNameAndCmd h
                { SQL := query, Columns := cols, Params := whereParams ++ limitParams,
                  DefaultTableName := defaultTableName } with
            | panic p => simp
            | error e => simp
            | ok q1 =>
              obtain ⟨name, cmd, _, _, _, hq⟩ := parseNameAndCmd_ok h _ q1 hn
              constructor
              · intro err herr
                simp at herr
              · intro params d hpd q tree1 hq1
                simp only [Outcome.ok.injEq, Prod.mk.injEq] at hpd hq1
                rw [← hq1.1, hq, ← hpd.1, ← hpd.2]
                exact ⟨rfl, rfl⟩

/-- With a valid directive in the text of the query, `parseNameAndCmd`
returns the query with its name and command set. -/
theorem parseNameAndCmd_valid (h : Helpers Settings) (q : Query)
    (hvalid : validDirective h q.SQL) :
    ∃ name cmd : String, name ≠ "" ∧ cmd ≠ "" ∧
      q.parseNameAndCmd h = .ok { q with Name := name, Cmd := cmd } := by
  obtain ⟨name, cmd, hmeta, hname, hcmd⟩ := hvalid
  refine ⟨name, cmd, hname, hcmd, ?_⟩
  simp [Query.parseNameAndCmd, hmeta, hname, hcmd]

/-- The predicate machinery does not panic. -/
theorem fromWhereLimit_no_panic (h : Helpers Settings) (frm : List TableExpr)
    (whereClause : Option Where) (limit : Option Limit) (s : Schema) (settings : Settings)
    (p : Panic) : fromWhereLimit h frm whereClause limit s settings ≠ .panic p := by
  intro hp
  unfold fromWhereLimit at hp
  cases hf : parseFrom frm false with
  | panic p1 => exact parseFrom_no_panic _ _ p1 hf
  | error e => simp [hf] at hp
  | ok scope =>
    obtain ⟨tableAliasMap, defaultTableName⟩ := scope
    simp only [hf] at hp
    cases hw : h.paramsInWhereExpr whereClause s tableAliasMap defaultTableName settings with
    | error e => simp [hw] at hp
    | ok whereParams =>
      simp only [hw] at hp
      cases hl : h.paramsInLimitExpr limit s tableAliasMap settings with
      | error e => simp [hl] at hp
      | ok limitParams => simp [hl] at hp

/-- The function `parseSelect` once its FROM list has resolved and its
projection list has bound to `cols`: the predicate machinery on its FROM,
WHERE and LIMIT clauses, then the directive. -/
theorem parseSelect_after_projection (h : Helpers Settings) (sel : Select) (selQuery : String)
    (s : Schema) (settings : Settings) (tableAliasMap : FromTables) (d : String)
    (first : SelectExpr) (rest : List SelectExpr) (cols : List Column)
    (hf : parseFrom sel.From false = .ok (tableAliasMap, d))
    (hsel : sel.SelectExprs = first :: rest)
    (hcols : parseSelectAliasExpr h (expandStar s d first (first :: rest)) s tableAliasMap d =
      .ok cols) :
    parseSelect h sel selQuery s settings =
      match fromWhereLimit h sel.From sel.Where sel.Limit s settings with
      | .panic p => .panic p
      | .error err => .error err
      | .ok (params, defaultTableName) =>
        match Query.parseNameAndCmd h
            { SQL := selQuery, Columns := cols, Params := params,
              DefaultTableName := defaultTableName } with
        | .panic p => .panic p
        | .error err => .error err
        | .ok parsedQuery =>
          .ok (parsedQuery, { sel with
            SelectExprs := expandStar s d first (first :: rest) }) := by
  rw [parseSelect_eq h sel selQuery s settings tableAliasMap d first rest hf hsel]
  simp only [hcols, fromWhereLimit, hf]
  cases h.paramsInWhereExpr sel.Where s tableAliasMap d settings with
  | error e => rfl
  | ok whereParams =>
    simp only
    cases h.paramsInLimitExpr sel.Limit s tableAliasMap settings with
    | error e => rfl
    | ok limitParams => rfl

/-- C17: for a DELETE and a SELECT with the same FROM list, WHERE clause and
LIMIT clause, on the same catalog and settings; the predicate machinery
`fromWhereLimit` is the three calls on these clauses.  `parseDelete` is the
machinery followed by the directive, with empty Columns.  `parseSelect`
fails at FROM with the error `parseDelete` fails with; once its projection
list has bound, `parseSelect` is the same machinery followed by the
directive, so it fails at WHERE or LIMIT exactly when `parseDelete` does and
with the same error; with valid directives on both texts the two routines
return the same error or both return a Query, and when both return a Query
the Params (WHERE parameters, then LIMIT parameters) and the default table
are equal. -/
theorem parseDelete_matches_parseSelect (h : Helpers Settings) (sel : Select) (del : Delete)
    (selQuery delQuery : String) (s : Schema) (settings : Settings)
    (hfrom : del.TableExprs = sel.From) (hwhere : del.Where = sel.Where)
    (hlimit : del.Limit = sel.Limit) :
    (∀ err, fromWhereLimit h sel.From sel.Where sel.Limit s settings = .error err →
      parseDelete h del delQuery s settings = .error err ∧
      ∀ r, parseSelect h sel selQuery s settings ≠ .ok r) ∧
    (∀ params defaultTableName,
      fromWhereLimit h sel.From sel.Where sel.Limit s settings =
        .ok (params, defaultTableName) →
      parseDelete h del delQuery s settings =
        Query.parseNameAndCmd h
          { SQL := delQuery, Params := params, Columns := [],
            DefaultTableName := defaultTableName } ∧
      ∀ qs tree1 qd, parseSelect h sel selQuery s settings = .ok (qs, tree1) →
        parseDelete h del delQuery s settings = .ok qd →
        qd.Params = qs.Params ∧ qd.DefaultTableName = qs.DefaultTableName) ∧
    (∀ p, fromWhereLimit h sel.From sel.Where sel.Limit s settings ≠ .panic p) ∧
    (∀ qd, parseDelete h del delQuery s settings = .ok qd → qd.Columns = []) ∧
    (∀ err, parseFrom sel.From false = .error err →
      parseSelect h sel selQuery s settings = .error (.tableAliases err) ∧
      parseDelete h del delQuery s settings = .error (.tableAliases err)) ∧
    (∀ tableAliasMap d first rest cols,
      parseFrom sel.From false = .ok (tableAliasMap, d) →
      sel.SelectExprs = first :: rest →
      parseSelectAliasExpr h (expandStar s d first (first :: rest)) s tableAliasMap d =
        .ok cols →
      (parseSelect h sel selQuery s settings =
        match fromWhereLimit h sel.From sel.Where sel.Limit s settings with
        | .panic p => .panic p
        | .error err => .error err
        | .ok (params, defaultTableName) =>
          match Query.parseNameAndCmd h
              { SQL := selQuery, Columns := cols, Params := params,
                DefaultTableName := defaultTableName } with
          | .panic p => .panic p
          | .error err => .error err
          | .ok parsedQuery =>
            .ok (parsedQuery, { sel with
              SelectExprs := expandStar s d first (first :: rest) })) ∧
      (∀ err, fromWhereLimit h sel.From sel.Where sel.Limit s settings = .error err →
        parseSelect h sel selQuery s settings = .error err ∧
        parseDelete h del delQuery s settings = .error err) ∧
      (validDirective h selQuery → validDirective h delQuery →
        (∀ err, parseSelect h sel selQuery s settings = .error err ↔
          parseDelete h del delQuery s settings = .error err) ∧
        ((∃ qs tree1, parseSelect h sel selQuery s settings = .ok (qs, tree1)) ↔
          ∃ qd, parseDelete h del delQuery s settings = .ok qd))) := by
  have hdel := parseDelete_eq h del delQuery s settings
  rw [hfrom, hwhere, hlimit] at hdel
  have hselect := parseSelect_fromWhereLimit h sel selQuery s settings
  refine ⟨?_, ?_, ?_, ?_, ?_, ?_⟩
  · intro err herr
    rw [herr] at hdel
    exact ⟨hdel, hselect.1 err herr⟩
  · intro params d hpd
    rw [hpd] at hdel
    refine ⟨hdel, ?_⟩
    intro qs tree1 qd hqs hqd
    obtain ⟨hp, hd⟩ := hselect.2 params d hpd qs tree1 hqs
    rw [hdel] at hqd
    obtain ⟨name, cmd, _, _, _, hq⟩ := parseNameAndCmd_ok h _ qd hqd
    rw [hq, hp, hd]
    exact ⟨rfl, rfl⟩
  · exact fromWhereLimit_no_panic h sel.From sel.Where sel.Limit s settings
  · intro qd hqd
    rw [hdel] at hqd
    cases hm : fromWhereLimit h sel.From sel.Where sel.Limit s settings with
    | panic p => simp [hm] at hqd
    | error e => simp [hm] at hqd
    | ok v =>
      obtain ⟨params, d⟩ := v
      simp only [hm] at hqd
      obtain ⟨name, cmd, _, _, _, hq⟩ := parseNameAndCmd_ok h _ qd hqd
      rw [hq]
  · intro err hf
    constructor
    · simp [parseSelect, hf]
    · simp [parseDelete, hfrom, hf]
  · intro tableAliasMap d first rest cols hf hsel hcols
    have hsq := parseSelect_after_projection h sel selQuery s settings tableAliasMap d first rest
      cols hf hsel hcols
    refine ⟨hsq, ?_, ?_⟩
    · intro err herr
      rw [hsq, hdel, herr]
      exact ⟨rfl, rfl⟩
    · intro hvs hvd
      cases hm : fromWhereLimit h sel.From sel.Where sel.Limit s settings with
      | panic p => exact absurd hm (fromWhereLimit_no_panic h _ _ _ s settings p)
      | error e =>
        rw [hsq, hdel, hm]
        simp
      | ok v =>
        obtain ⟨params, d1⟩ := v
        obtain ⟨n1, c1, _, _, hq1⟩ := parseNameAndCmd_valid h
          { SQL := selQuery, Columns := cols, Params := params, DefaultTableName := d1 } hvs
        obtain ⟨n2, c2, _, _, hq2⟩ := parseNameAndCmd_valid h
          { SQL := delQuery, Params := params, Columns := [], DefaultTableName := d1 } hvd
        rw [hsq, hdel, hm]
        simp only [hq1, hq2]
        simp

/-- C17 at `SELECT a FROM t WHERE b = ? LIMIT ?` and `DELETE FROM t WHERE b =
? LIMIT ?`: with collectors that find the two placeholders both statements
bind, with the same two Params (WHERE, then LIMIT) and default table; with a
WHERE collector that fails both fail with its error. -/
theorem parseDelete_matches_parseSelect_witness :
    parseDelete exampleHelpersLimit exampleDeleteWhere "/* name: Example :exec */ d"
        exampleSchema () =
      .ok { SQL := "/* name: Example :exec */ d", Columns := [], Name := "Example",
            Cmd := ":exec", DefaultTableName := "t",
            Params := [{ OriginalName := ":v2", Name := "b", Typ := "text" },
                       { OriginalName := ":v3", Name := "limit", Typ := "uint32" }] } ∧
    parseSelect exampleHelpersLimit exampleSelectWhere "/* name: Example :exec */ s"
        exampleSchema () =
      .ok ({ SQL := "/* name: Example :exec */ s", Name := "Example", Cmd := ":exec",
             DefaultTableName := "t",
             Columns := [⟨⟨"a", ⟨"int", true⟩⟩, "t"⟩],
             Params := [{ OriginalName := ":v2", Name := "b", Typ := "text" },
                        { OriginalName := ":v3", Name := "limit", Typ := "uint32" }] },
           exampleSelectWhere) ∧
    ((∀ err, parseSelect exampleHelpersLimit exampleSelectWhere "/* name: Example :exec */ s"
          exampleSchema () = .error err ↔
        parseDelete exampleHelpersLimit exampleDeleteWhere "/* name: Example :exec */ d"
          exampleSchema () = .error err) ∧
      ((∃ qs tree1, parseSelect exampleHelpersLimit exampleSelectWhere
          "/* name: Example :exec */ s" exampleSchema () = .ok (qs, tree1)) ↔
        ∃ qd, parseDelete exampleHelpersLimit exampleDeleteWhere "/* name: Example :exec */ d"
          exampleSchema () = .ok qd)) ∧
    (parseSelect exampleHelpersNoColumn exampleSelectWhere "/* name: Example :exec */ s"
        exampleSchema () = .error (.helper "column not found") ∧
      parseDelete exampleHelpersNoColumn exampleDeleteWhere "/* name: Example :exec */ d"
        exampleSchema () = .error (.helper "column not found")) :=
  ⟨by decide, rfl,
   ((parseDelete_matches_parseSelect exampleHelpersLimit exampleSelectWhere exampleDeleteWhere
      "/* name: Example :exec */ s" "/* name: Example :exec */ d" exampleSchema () rfl rfl
      rfl).2.2.2.2.2 [("t", { TrueName := "t", IsLeftJoined := false })] "t"
      (.aliased (.colName { Name := "a" }) "") [] [⟨⟨"a", ⟨"int", true⟩⟩, "t"⟩] rfl rfl
      rfl).2.2 ⟨"Example", ":exec", rfl, by decide, by decide⟩
      ⟨"Example", ":exec", rfl, by decide, by decide⟩,
   ((parseDelete_matches_parseSelect exampleHelpersNoColumn exampleSelectWhere
      exampleDeleteWhere "/* name: Example :exec */ s" "/* name: Example :exec */ d"
      exampleSchema () rfl rfl rfl).2.2.2.2.2
      [("t", { TrueName := "t", IsLeftJoined := false })] "t"
      (.aliased (.colName { Name := "a" }) "") [] [⟨⟨"a", ⟨"int", true⟩⟩, "t"⟩] rfl rfl
      rfl).2.1 (.helper "column not found") rfl⟩

/-! ## Functions, comma lists and wildcards: claims -/

/-- A projection that is a GROUP_CONCAT expression, or a call of a function
whose name `functionReturnType` recognises, does not make
`parseSelectAliasExpr` fail: the loop appends exactly one column for it and
goes on, and alone it gives exactly that column; the column has `NotNull =
true` and an empty table, and for a function call it is named by the alias
when there is one and by the lower-cased function name otherwise. -/
theorem parseSelectAliasExpr_function_like (h : Helpers Settings) (s : Schema)
    (tableAliasMap : FromTables) (defaultTable : String) (proj : SelectExpr)
    (hproj : proj.isFunctionLike = true) (hknown : proj.functionKnown h = true) :
    ∃ col : Column,
      (∀ rest cols, parseSelectAliasExprLoop h s tableAliasMap defaultTable (proj :: rest) cols =
        parseSelectAliasExprLoop h s tableAliasMap defaultTable rest (cols ++ [col])) ∧
      parseSelectAliasExpr h [proj] s tableAliasMap defaultTable = .ok [col] ∧
      col.ColumnDefinition.Type_.NotNull = true ∧
      col.Table = "" ∧
      (∀ Qualifier Name Distinct Exprs As,
        proj = .aliased (.funcExpr Qualifier Name Distinct Exprs) As →
        col.ColumnDefinition.Name = if As ≠ "" then As else h.lowered Name) := by
  cases proj with
  | star tn => simp [SelectExpr.isFunctionLike] at hproj
  | nextval e => simp [SelectExpr.isFunctionLike] at hproj
  | aliased expr As =>
    cases expr with
    | groupConcat D E S =>
      refine ⟨⟨⟨As, ⟨"varchar", true⟩⟩, ""⟩, fun rest cols => rfl, rfl, rfl, rfl, ?_⟩
      intro Q N Dist E1 As1 hp
      simp at hp
    | funcExpr Q N Dist E =>
      simp only [SelectExpr.functionKnown, Option.isSome_iff_exists] at hknown
      obtain ⟨funcType, hType⟩ := hknown
      refine ⟨⟨⟨if As ≠ "" then As else h.lowered N, ⟨funcType, true⟩⟩, ""⟩,
        ?_, ?_, rfl, rfl, ?_⟩
      · intro rest cols
        by_cases hAs : As = "" <;> simp [parseSelectAliasExprLoop, hAs, hType]
      · by_cases hAs : As = "" <;>
          simp [parseSelectAliasExpr, parseSelectAliasExprLoop, hAs, hType]
      · intro Q1 N1 Dist1 E1 As1 hp
        simp only [SelectExpr.aliased.injEq, Expr.funcExpr.injEq] at hp
        obtain ⟨⟨_, hN, _, _⟩, hA⟩ := hp
        rw [hN, hA]
    | _ => simp [SelectExpr.isFunctionLike] at hproj

/-- The recognised case at `SELECT COUNT(*)` and at `SELECT SUM(a) AS total`:
one column each, named `count` and `total`, not null, without a table. -/
theorem parseSelectAliasExpr_function_like_witness :
    parseSelectAliasExpr exampleHelpers
        [.aliased (.funcExpr "" "COUNT" false [.star { Name := "" }]) "",
         .aliased (.funcExpr "" "SUM" false [.aliased (.colName { Name := "a" }) ""]) "total"]
        exampleSchema [] "t" =
      .ok [⟨⟨"count", ⟨"int", true⟩⟩, ""⟩, ⟨⟨"total", ⟨"int", true⟩⟩, ""⟩] ∧
    ∃ col : Column,
      (∀ rest cols, parseSelectAliasExprLoop exampleHelpers exampleSchema [] "t"
          (.aliased (.funcExpr "" "COUNT" false [.star { Name := "" }]) "" :: rest) cols =
        parseSelectAliasExprLoop exampleHelpers exampleSchema [] "t" rest (cols ++ [col])) ∧
      parseSelectAliasExpr exampleHelpers
        [.aliased (.funcExpr "" "COUNT" false [.star { Name := "" }]) ""] exampleSchema [] "t" =
        .ok [col] ∧
      col.ColumnDefinition.Type_.NotNull = true ∧
      col.Table = "" ∧
      (∀ Qualifier Name Distinct Exprs As,
        SelectExpr.aliased (.funcExpr "" "COUNT" false [.star { Name := "" }]) "" =
          .aliased (.funcExpr Qualifier Name Distinct Exprs) As →
        col.ColumnDefinition.Name = if As ≠ "" then As else exampleHelpers.lowered Name) :=
  ⟨by decide, parseSelectAliasExpr_function_like exampleHelpers exampleSchema [] "t"
    (.aliased (.funcExpr "" "COUNT" false [.star { Name := "" }]) "") rfl (by decide)⟩

/-- A call of a function whose name `functionReturnType` does not recognise
makes the projection loop panic, whatever stands after it. -/
theorem parseSelectAliasExprLoop_unknown_function (h : Helpers Settings) (s : Schema)
    (tableAliasMap : FromTables) (defaultTable : String) (Qualifier Name As : String)
    (Distinct : Bool) (Exprs rest : List SelectExpr) (cols : List Column)
    (hunknown : h.functionReturnType (h.lowered Name) = none) :
    parseSelectAliasExprLoop h s tableAliasMap defaultTable
      (.aliased (.funcExpr Qualifier Name Distinct Exprs) As :: rest) cols =
      .panic (.unknownFunction (h.lowered Name)) := by
  simp only [parseSelectAliasExprLoop, hunknown]

/-- C18, evaluated on the code: for the projection `foo(a)` of `SELECT foo(a)
FROM t`, where `foo` is a name `functionReturnType` has no return type for,
`parseSelectAliasExpr` panics in the call of line 439 and emits no column,
and so do `parseSelect` and `parseQueryString`; a recognised function in the
same place (`count(a)`) gives its one column. -/
theorem parseSelectAliasExpr_unknown_function_panics :
    parseSelectAliasExpr exampleHelpers [exampleFoo] exampleSchema
        [("t", { TrueName := "t", IsLeftJoined := false })] "t" =
      .panic (.unknownFunction "foo") ∧
    parseSelect exampleHelpers exampleSelectFoo "/* name: Example :exec */ s" exampleSchema () =
      .panic (.unknownFunction "foo") ∧
    parseQueryString exampleHelpers (.select exampleSelectFoo) "/* name: Example :exec */ s"
        exampleSchema () = .panic (.unknownFunction "foo") ∧
    parseSelectAliasExpr exampleHelpers
        [.aliased (.funcExpr "" "count" false [.aliased (.colName { Name := "a" }) ""]) ""]
        exampleSchema [("t", { TrueName := "t", IsLeftJoined := false })] "t" =
      .ok [⟨⟨"count", ⟨"int", true⟩⟩, ""⟩] :=
  ⟨rfl, rfl, rfl, by decide⟩

/-- The loop of `parseFrom` over plain table references: each reference is
assigned under its key, and the default table name is the name of the last
one. -/
theorem parseFromLoop_tableRefs (isLeftJoined : Bool) (refs : List (TableName × String)) :
    ∀ (tables : FromTables) (d : String),
      parseFromLoop isLeftJoined (tableRefs refs) tables d =
        .ok (refs.foldl (fun acc r => acc.set (scopeKey r.1 r.2)
              { TrueName := r.1.Name, IsLeftJoined := isLeftJoined }) tables,
            (refs.getLast?.map fun r => r.1.Name).getD d) := by
  induction refs with
  | nil => intro tables d; rfl
  | cons r rest ih =>
    intro tables d
    obtain ⟨name, As⟩ := r
    have hstep : parseFromExpr isLeftJoined tables (.aliased (.tableName name) As) =
        .ok (.next (tables.set (scopeKey name As)
          { TrueName := name.Name, IsLeftJoined := isLeftJoined }) name.Name) := by
      by_cases hAs : As = "" <;> simp [parseFromExpr, scopeKey, hAs]
    simp only [tableRefs, List.map_cons, parseFromLoop, hstep]
    have := ih (tables.set (scopeKey name As)
      { TrueName := name.Name, IsLeftJoined := isLeftJoined }) name.Name
    simp only [tableRefs] at this
    rw [this]
    cases rest with
    | nil => rfl
    | cons r2 rest2 =>
      simp only [List.getLast?_cons_cons]
      rw [List.getLast?_eq_getLast _ (List.cons_ne_nil r2 rest2)]
      rfl

/-- Reading a scope after the references were assigned in order: the entry
of the last reference with the key, or the entry the scope had. -/
theorem get_foldl_set_refs (isLeftJoined : Bool) (refs : List (TableName × String))
    (tables : FromTables) (k : String) :
    GoMap.get (refs.foldl (fun acc r => acc.set (scopeKey r.1 r.2)
        { TrueName := r.1.Name, IsLeftJoined := isLeftJoined }) tables) k =
      (lastRef refs isLeftJoined k).or (tables.get k) := by
  induction refs using List.reverseRecOn with
  | nil => simp [lastRef]
  | append_singleton rest r ih =>
    simp only [List.foldl_append, List.foldl_cons, List.foldl_nil, GoMap.get_set, lastRef,
      List.reverse_append, List.reverse_cons, List.reverse_nil, List.nil_append,
      List.singleton_append, List.find?_cons]
    by_cases hk : scopeKey r.1 r.2 = k
    · simp [hk]
    · simp only [hk, if_false, decide_False]
      rw [ih]
      rfl

/-- A join after plain table references: the loop returns what `parseFrom`
returns for the join alone. -/
theorem parseFromLoop_refs_then_join (isLeftJoined : Bool) (pre : List (TableName × String))
    (l r : TableExpr) (j : String) (post : List TableExpr) :
    ∀ (tables : FromTables) (d : String),
      parseFromLoop isLeftJoined (tableRefs pre ++ .join l j r :: post) tables d =
        parseFrom [.join l j r] isLeftJoined := by
  induction pre with
  | nil =>
    intro tables d
    rw [parseFrom_singleton]
    simp only [tableRefs, List.map_nil, List.nil_append, parseFromLoop]
    rw [parseFromExpr_join isLeftJoined tables, parseFromExpr_join isLeftJoined []]
    cases parseFrom [l] false with
    | panic p => rfl
    | error e => rfl
    | ok left =>
      obtain ⟨lt, ld⟩ := left
      simp only
      cases parseFrom [r] (decide (j = "left join")) with
      | panic p => rfl
      | error e => rfl
      | ok right => rfl
  | cons ref rest ih =>
    intro tables d
    obtain ⟨name, As⟩ := ref
    have hstep : parseFromExpr isLeftJoined tables (.aliased (.tableName name) As) =
        .ok (.next (tables.set (scopeKey name As)
          { TrueName := name.Name, IsLeftJoined := isLeftJoined }) name.Name) := by
      by_cases hAs : As = "" <;> simp [parseFromExpr, scopeKey, hAs]
    simp only [tableRefs, List.map_cons, List.cons_append, parseFromLoop, hstep]
    have := ih (tables.set (scopeKey name As)
      { TrueName := name.Name, IsLeftJoined := isLeftJoined }) name.Name
    simp only [tableRefs] at this
    exact this

/-- C19: on a FROM list of plain table references `parseFrom` succeeds; the
scope holds, for each key, the entry of the last reference with that key
(its true name and the flag passed in) and nothing else, and the default
table name is the true name of the last reference of the list.  On a list
in which a join follows plain table references `parseFrom` returns what it
returns for that join alone: the references before it and every expression
after it have no effect. -/
theorem parseFrom_comma_list (isLeftJoined : Bool) (refs pre : List (TableName × String))
    (l r : TableExpr) (j : String) (post : List TableExpr) :
    (∃ scope : FromTables,
      parseFrom (tableRefs refs) isLeftJoined = .ok (scope, lastTable refs) ∧
      ∀ k : String, scope.get k = lastRef refs isLeftJoined k) ∧
    parseFrom (tableRefs pre ++ .join l j r :: post) isLeftJoined =
      parseFrom [.join l j r] isLeftJoined := by
  refine ⟨⟨_, parseFromLoop_tableRefs isLeftJoined refs [] "", ?_⟩,
    parseFromLoop_refs_then_join isLeftJoined pre l r j post [] ""⟩
  intro k
  rw [get_foldl_set_refs]
  simp [GoMap.get]

/-- The projection loop on a list with a wildcard in it returns no columns:
it returns an error, at the wildcard or earlier at a column that is not
found, or it panics earlier in `functionReturnType`, at a function name that
is not recognised. -/
theorem parseSelectAliasExprLoop_star (h : Helpers Settings) (s : Schema)
    (tableAliasMap : FromTables) (defaultTable : String) (exprs : List SelectExpr) :
    ∀ (cols : List Column), (∃ tn, SelectExpr.star tn ∈ exprs) →
      (parseSelectAliasExprLoop h s tableAliasMap defaultTable exprs cols).isError = true ∨
      ∃ name, parseSelectAliasExprLoop h s tableAliasMap defaultTable exprs cols =
        .panic (.unknownFunction name) := by
  induction exprs with
  | nil => intro cols hmem; simp at hmem
  | cons e rest ih =>
    intro cols hmem
    obtain ⟨tn, hmem⟩ := hmem
    cases e with
    | star tn1 => exact Or.inl rfl
    | nextval e1 => exact Or.inl rfl
    | aliased expr As =>
      have hrest : ∃ tn, SelectExpr.star tn ∈ rest := by
        rcases List.mem_cons.mp hmem with hhead | htail
        · simp at hhead
        · exact ⟨tn, htail⟩
      cases expr with
      | colName v =>
        simp only [parseSelectAliasExprLoop]
        cases h.getColType s v tableAliasMap defaultTable with
        | error err => exact Or.inl rfl
        | ok res => exact ih _ hrest
      | funcExpr Q N Dist E =>
        simp only [parseSelectAliasExprLoop]
        cases h.functionReturnType (h.lowered N) with
        | none => exact Or.inr ⟨_, rfl⟩
        | some funcType => exact ih _ hrest
      | _ =>
        simp only [parseSelectAliasExprLoop]
        exact ih _ hrest

/-- The projection loop does not panic on a list in which every function call
has a name `functionReturnType` recognises. -/
theorem parseSelectAliasExprLoop_no_panic (h : Helpers Settings) (s : Schema)
    (tableAliasMap : FromTables) (defaultTable : String) (exprs : List SelectExpr) :
    ∀ (cols : List Column), (∀ e ∈ exprs, e.functionKnown h = true) →
      ∀ p, parseSelectAliasExprLoop h s tableAliasMap defaultTable exprs cols ≠ .panic p := by
  induction exprs with
  | nil => intro cols _ p; simp [parseSelectAliasExprLoop]
  | cons e rest ih =>
    intro cols hknown p
    have hrest : ∀ e1 ∈ rest, e1.functionKnown h = true :=
      fun e1 he1 => hknown e1 (List.mem_cons_of_mem _ he1)
    have hhead := hknown e (List.mem_cons_self _ _)
    cases e with
    | star tn1 => simp [parseSelectAliasExprLoop]
    | nextval e1 => simp [parseSelectAliasExprLoop]
    | aliased expr As =>
      cases expr with
      | colName v =>
        simp only [parseSelectAliasExprLoop]
        cases h.getColType s v tableAliasMap defaultTable with
        | error err => simp
        | ok res => exact ih _ hrest p
      | funcExpr Q N Dist E =>
        simp only [SelectExpr.functionKnown, Option.isSome_iff_exists] at hhead
        obtain ⟨funcType, hType⟩ := hhead
        simp only [parseSelectAliasExprLoop, hType]
        exact ih _ hrest p
      | _ =>
        simp only [parseSelectAliasExprLoop]
        exact ih _ hrest p

/-- C20: for a select whose FROM list resolves to the default table `d`.
When the first projection is a wildcard, bare or qualified, `parseSelect`
behaves as on the bare `*` alone (the qualifier and the later projections
have no effect), a tree it returns has the unqualified references to the
columns of `d` as projection list, and when `d` is not in the catalog the
projection step yields no column and no error: the result is that of WHERE,
LIMIT and the directive with an empty Columns list and an empty projection
list.  For a FROM list that is one join tree of table leaves `d` is the
left-most table.  When the first projection is not a wildcard and a later
one is, binding fails: `parseSelect` returns an error, or it panics before
the wildcard in `functionReturnType`, at a function call whose name is not
recognised; it returns an error when every function call of the list has a
recognised name. -/
theorem parseSelect_wildcard (h : Helpers Settings) (tree : Select) (query : String)
    (s : Schema) (settings : Settings) (tableAliasMap : FromTables) (d : String)
    (hfrom : parseFrom tree.From false = .ok (tableAliasMap, d)) :
    (∀ tn rest, tree.SelectExprs = .star tn :: rest →
      parseSelect h tree query s settings =
        parseSelect h { tree with SelectExprs := [.star { Name := "" }] } query s settings ∧
      (∀ q tree1, parseSelect h tree query s settings = .ok (q, tree1) →
        tree1.SelectExprs = columnRefs ((s.tables.get d).getD [])) ∧
      (s.tables.get d = none →
        parseSelect h tree query s settings =
          match h.paramsInWhereExpr tree.Where s tableAliasMap d settings with
          | .error err => .error err
          | .ok whereParams =>
            match h.paramsInLimitExpr tree.Limit s tableAliasMap settings with
            | .error err => .error err
            | .ok limitParams =>
              match Query.parseNameAndCmd h
                  { SQL := query, Columns := [], Params := whereParams ++ limitParams,
                    DefaultTableName := d } with
              | .panic p => .panic p
              | .error err => .error err
              | .ok parsedQuery => .ok (parsedQuery, { tree with SelectExprs := [] }))) ∧
    (∀ t, tree.From = [t] → t.leavesAreTables = true → d = t.leftMostTable) ∧
    (∀ first rest tn, tree.SelectExprs = first :: rest → first.isStar = false →
      SelectExpr.star tn ∈ rest →
      ((parseSelect h tree query s settings).isError = true ∨
        ∃ name, parseSelect h tree query s settings = .panic (.unknownFunction name)) ∧
      ((∀ e ∈ first :: rest, e.functionKnown h = true) →
        (parseSelect h tree query s settings).isError = true)) := by
  refine ⟨?_, ?_, ?_⟩
  · intro tn rest hsel
    have heq := parseSelect_eq h tree query s settings tableAliasMap d (.star tn) rest hfrom hsel
    refine ⟨?_, ?_, ?_⟩
    · rw [heq, parseSelect_eq h { tree with SelectExprs := [.star { Name := "" }] } query s
        settings tableAliasMap d (.star { Name := "" }) [] hfrom rfl]
      rfl
    · intro q tree1 hok
      rw [heq] at hok
      simp only [expandStar] at hok
      repeat' split at hok
      all_goals first
        | (simp at hok; done)
        | (simp only [Outcome.ok.injEq, Prod.mk.injEq] at hok
           rw [← hok.2]
           rfl)
    · intro hnone
      rw [heq]
      simp only [expandStar, hnone, Option.getD_none, List.map_nil, parseSelectAliasExpr,
        parseSelectAliasExprLoop]
  · intro t ht hleaves
    obtain ⟨scope, hok⟩ := parseFrom_join_tree_ok t false hleaves
    rw [ht, hok] at hfrom
    simp only [Outcome.ok.injEq, Prod.mk.injEq] at hfrom
    exact hfrom.2.symm
  · intro first rest tn hsel hfirst hmem
    rw [parseSelect_eq h tree query s settings tableAliasMap d first rest hfrom hsel]
    have hexp : expandStar s d first (first :: rest) = first :: rest := by
      cases first with
      | star tn1 => simp [SelectExpr.isStar] at hfirst
      | aliased e As => rfl
      | nextval e => rfl
    rw [hexp]
    have hloop := parseSelectAliasExprLoop_star h s tableAliasMap d (first :: rest) []
      ⟨tn, List.mem_cons_of_mem _ hmem⟩
    have hnopanic := parseSelectAliasExprLoop_no_panic h s tableAliasMap d (first :: rest) []
    unfold parseSelectAliasExpr
    cases hl : parseSelectAliasExprLoop h s tableAliasMap d (first :: rest) [] with
    | panic p =>
      rw [hl] at hloop
      rcases hloop with herr | ⟨name, hname⟩
      · simp [Outcome.isError] at herr
      · refine ⟨Or.inr ⟨name, ?_⟩, fun hknown => absurd hl (hnopanic hknown p)⟩
        simp only [Outcome.panic.injEq] at hname
        rw [hname]
    | error e => exact ⟨Or.inl rfl, fun _ => rfl⟩
    | ok cols =>
      rw [hl] at hloop
      rcases hloop with herr | ⟨name, hname⟩
      · simp [Outcome.isError] at herr
      · simp at hname

/-- C20 at `SELECT b.*, a FROM t`: the result is that of `SELECT * FROM t`,
the projection list becoming `a, b`; and at `SELECT a, * FROM t`, which
fails. -/
theorem parseSelect_wildcard_witness :
    (parseSelect exampleHelpers
        { exampleSelectStar with SelectExprs := [.star { Name := "b" },
            .aliased (.colName { Name := "a" }) ""] }
        "/* name: Example :exec */ s" exampleSchema () =
      parseSelect exampleHelpers exampleSelectStar "/* name: Example :exec */ s"
        exampleSchema ()) ∧
    (parseSelect exampleHelpers
        { exampleSelectStar with SelectExprs := [.aliased (.colName { Name := "a" }) "",
            .star { Name := "" }] }
        "/* name: Example :exec */ s" exampleSchema ()).isError = true :=
  ⟨((parseSelect_wildcard exampleHelpers
      { exampleSelectStar with SelectExprs := [.star { Name := "b" },
          .aliased (.colName { Name := "a" }) ""] }
      "/* name: Example :exec */ s" exampleSchema ()
      [("t", { TrueName := "t", IsLeftJoined := false })] "t" rfl).1
      { Name := "b" } [.aliased (.colName { Name := "a" }) ""] rfl).1,
   ((parseSelect_wildcard exampleHelpers
      { exampleSelectStar with SelectExprs := [.aliased (.colName { Name := "a" }) "",
          .star { Name := "" }] }
      "/* name: Example :exec */ s" exampleSchema ()
      [("t", { TrueName := "t", IsLeftJoined := false })] "t" rfl).2.2
      (.aliased (.colName { Name := "a" }) "") [.star { Name := "" }] { Name := "" } rfl rfl
      (List.mem_singleton.mpr rfl)).2 (by decide)⟩

/-! ## Files: the steps of `parseContents` where binding returns -/

/-- A statement whose binding returns an error ends the loop: the error is
positioned at the statement's start offset, no query is returned, and the
statements after it are not looked at. -/
theorem parseContentsLoop_bind_error (h : Helpers Settings) (fh : FileHelpers)
    (filename contents : String) (settings : Settings) (syntaxError : Option String)
    (q : Statement) (position : Nat) (rest : List (Statement × Nat)) (queries : List Query)
    (start : Nat) (s : Schema) (query : String) (err : BindError)
    (hslice : sliceQuery contents start position = some query)
    (hbind : parseQueryString h q query s settings = .error err) :
    parseContentsLoop h fh filename contents settings syntaxError ((q, position) :: rest)
      queries start s = .error { Pos := start, Err := .bind err } s := by
  simp only [parseContentsLoop, hslice, hbind]

/-- A statement that binds to a Query is appended, with the base name of the
file, and the loop goes on from the position after it; a statement that
binds to nothing (DDL, or a kind without a binding routine) is left out. -/
theorem parseContentsLoop_bind_ok (h : Helpers Settings) (fh : FileHelpers)
    (filename contents : String) (settings : Settings) (syntaxError : Option String)
    (q : Statement) (position : Nat) (rest : List (Statement × Nat)) (queries : List Query)
    (start : Nat) (s s1 : Schema) (query : String) (result : Option Query)
    (hslice : sliceQuery contents start position = some query)
    (hbind : parseQueryString h q query s settings = .ok (result, s1)) :
    parseContentsLoop h fh filename contents settings syntaxError ((q, position) :: rest)
      queries start s =
      parseContentsLoop h fh filename contents settings syntaxError rest
        (queries ++ (result.map fun r => { r with Filename := fh.base filename }).toList)
        position s1 := by
  simp only [parseContentsLoop, hslice, hbind]
  cases result with
  | none => simp
  | some r => rfl

/-- A syntax error after the statements bound so far: the error is positioned
at the parser's offset, or at the start offset of the statement being parsed
when the offset cannot be extracted, and no query is returned. -/
theorem parseContentsLoop_syntax_error (h : Helpers Settings) (fh : FileHelpers)
    (filename contents : String) (settings : Settings) (err : String) (queries : List Query)
    (start : Nat) (s : Schema) :
    ∃ e : ContentsError,
      parseContentsLoop h fh filename contents settings (some err) [] queries start s =
        .error { Pos := (match fh.locFromSyntaxErr err with
                         | .ok loc => loc
                         | .error _ => start), Err := e } s ∧
      (e = .syntaxError ∨ ∃ near, e = .syntaxErrorNear near) := by
  simp only [parseContentsLoop]
  cases fh.nearStrFromSyntaxErr err with
  | error e1 => exact ⟨.syntaxError, rfl, Or.inl rfl⟩
  | ok near => exact ⟨.syntaxErrorNear near, rfl, Or.inr ⟨near, rfl⟩⟩

end Claims

end Mysql
